import Mathlib

/-!
Verification of the BBCSoundDownloader download core (src/download.py).

The worker side embeds `DownloadWorker.run` and `DownloadWorker._try_download`
(lines 148-325) as a state-passing function over an explicit state `St`.
Reads of the shared mutable flag `self.is_cancelled` are modelled by a
monotone clock: every read increments a counter, and a read returns `true`
iff the counter has reached the (optional) threshold `t` at which the flag
was set from outside.  This is faithful to a flag that is set once and only
ever observed (never cleared) by the worker.

Filesystem effects are modelled explicitly: the per-attempt temporary file
(`tempfile.mkstemp`, written block by block by `urllib.request.urlretrieve`),
the destination file (mutated only by `shutil.move`, modelled as atomic as
the spec assumes for same-volume renames), a list of leaked temp files, and
a trace recording the observable pair (destination state, temp state) after
every filesystem mutation.  Qt signal emissions (`progress`, `finished`) and
the instrumented per-attempt / per-backoff-slice markers are recorded in a
chronological log.  Message strings are abstracted into symbolic values.

The session side embeds the GUI bookkeeping (`start_downloads`,
`start_next_downloads`, `handle_download_result`, `stop_downloads`,
lines 814-1013) as a counting state machine over `Session`.
-/

namespace BBC

/-- Platform, as tested by the module-level IS_WINDOWS / IS_LINUX / IS_MAC flags. -/
inductive Plat
  | windows
  | linux
  | mac
  | other
deriving DecidableEq

/-- Symbolic error-message strings carried by exceptions and by the finished signal. -/
inductive ErrMsg
  | noError
  | mkdirErr
  | emptyFile
  | destMkdirErr
  | moveErr
  | allUrlsFailed
  | transport (code : Nat)
deriving DecidableEq

/-- Outcome of one `urllib.request.urlretrieve` call: it either completes after
writing `blocks` blocks (the resulting file size, in blocks), or raises a
transport error after writing `blocks` blocks. -/
inductive Transfer
  | ok (blocks : Nat)
  | err (blocks : Nat) (msg : ErrMsg)
deriving DecidableEq

/-- The environment for one attempt of `_try_download`: which of its fallible
operations succeed.  `mkdirOk` is the first parent-directory creation (line 204),
`dirChmodOk` the Linux directory chmod (line 211), `mkdir2Ok` the second
directory creation (line 266), `moveOk` the `shutil.move` (line 269) and
`chmodOk` the non-Windows file chmod (line 274). -/
structure AttemptEnv where
  mkdirOk : Bool
  dirChmodOk : Bool
  transfer : Transfer
  mkdir2Ok : Bool
  moveOk : Bool
  chmodOk : Bool
deriving DecidableEq

/-- Symbolic progress-message kinds, one per `signals.progress.emit` site. -/
inductive Msg
  | starting
  | cancelledNotice
  | primaryFailed
  | dirError
  | downloading (block : Nat)
  | retryNotice (attempt maxAtt : Nat)
  | failedFrom
  | completedMsg
  | allFailed
deriving DecidableEq

/-- One chronological log entry: a progress signal, a finished signal, the
conclusion of one attempt against one URL (instrumentation for the attempt
sequencing), one 100 ms backoff sleep slice (`time.sleep(0.1)`), or a printed
chmod warning. -/
inductive LogE
  | progressE (m : Msg)
  | finishedE (success : Bool) (errorMessage : ErrMsg)
  | att (url attempt : Nat) (success : Bool)
  | slice (url attempt : Nat)
  | warned
deriving DecidableEq

/-- Observable state of a file under one path: absent, truncated (partially
written), or complete with a size. -/
inductive FileSt
  | absent
  | truncated (written : Nat)
  | complete (size : Nat)
deriving DecidableEq

/-- Worker state: the cancellation-read clock, the destination file, the
current attempt's temp file (bytes written, `none` when absent), the temp
files left behind on disk, the chronological log, and the trace of
(destination, temp) observations after every filesystem mutation. -/
structure St where
  cnt : Nat
  dest : FileSt
  temp : Option Nat
  leaked : List Nat
  log : List LogE
  trace : List (FileSt × Option Nat)
deriving DecidableEq

/-- Result of one iteration of the attempt loop in `_try_download`:
success (with the flag telling whether the finished signal was emitted,
line 280), a quiet cancellation (`return False` after observing the flag),
or a normal failure carrying `str(e)` (retry-eligible). -/
inductive AttResult
  | success (emitted : Bool)
  | cancelled
  | failedErr (msg : ErrMsg)
deriving DecidableEq

/-- Result of the fallback loop in `run` (lines 174-181). -/
inductive FbOut
  | successO
  | cancelledO
  | exhausted
deriving DecidableEq

/-- Value of the `i`-th read of `self.is_cancelled` when the flag is set just
before read number `k` (threshold `some k`), or never (`none`). -/
def readTrue (t : Option Nat) (i : Nat) : Bool :=
  match t with
  | none => false
  | some k => decide (k ≤ i)

/-- One read of `self.is_cancelled`: returns the flag value at the current
clock and advances the clock. -/
def readCancel (t : Option Nat) (s : St) : Bool × St :=
  (readTrue t s.cnt, { s with cnt := s.cnt + 1 })

/-- Append one log entry (a signal emission, marker or warning). -/
def emitL (e : LogE) (s : St) : St :=
  { s with log := s.log ++ [e] }

/-- Record the currently observable (destination, temp) pair in the trace. -/
def pushObs (s : St) : St :=
  { s with trace := s.trace ++ [(s.dest, s.temp)] }

/-- Initial worker state: destination absent, no temp file, empty log. -/
def st0 : St :=
  { cnt := 0, dest := .absent, temp := none, leaked := [], log := [],
    trace := [(.absent, none)] }

/-- The block-writing loop inside `urlretrieve` (line 250): before each block
the `report_progress` hook (lines 227-238) reads the cancellation flag and
raises if it is set; otherwise the block is appended to the temp file and a
progress signal is emitted.  Returns `true` iff the hook raised. -/
def transferLoop (t : Option Nat) : Nat → Nat → St → Bool × St
  | 0, _w, s => (false, s)
  | b + 1, w, s =>
    let r := readCancel t s
    if r.1 then (true, r.2)
    else
      let s1 := emitL (.progressE (.downloading (w + 1))) (pushObs { r.2 with temp := some (w + 1) })
      transferLoop t b (w + 1) s1

/-- The cancellation branch at lines 252-259: the temp file is removed and
the attempt returns `False` quietly (the check at line 293 re-reads the flag
after the hook raised; being monotone it is still set). -/
def cancelRemove (t : Option Nat) (s : St) : AttResult × St :=
  let s3 := pushObs { s with temp := none }
  let r3 := readCancel t s3
  (.cancelled, r3.2)

/-- The shared failure path of an attempt whose inner body raised after the
temp file existed (empty download, second mkdir, move, or transport error):
the inner handler removes the temp file (287-291) and re-checks the flag
(293); the outer handler stores `str(e)` and re-checks the flag (301),
returning quietly if cancelled and otherwise failing with the message. -/
def failPath (t : Option Nat) (m : ErrMsg) (s : St) : AttResult × St :=
  let s3 := pushObs { s with temp := none }
  let r3 := readCancel t s3
  if r3.1 then (.cancelled, r3.2)
  else
    let r4 := readCancel t r3.2
    if r4.1 then (.cancelled, r4.2) else (.failedErr m, r4.2)

/-- The directory-creation failure path (lines 215-217 and the outer handler):
emit the error message, re-raise, and check cancellation at line 301.  No
temp file exists yet. -/
def mkdirFailPath (t : Option Nat) (s : St) : AttResult × St :=
  let s1 := emitL (.progressE .dirError) s
  let r1 := readCancel t s1
  if r1.1 then (.cancelled, r1.2) else (.failedErr .mkdirErr, r1.2)

/-- The success tail of an attempt (lines 266-283): `shutil.move` onto the
destination, the non-Windows chmod (failure only prints a warning), and the
final flag-guarded emission of the completed/finished signals.  Returns
`True` in both cases. -/
def finishPath (plat : Plat) (t : Option Nat) (e : AttemptEnv) (b : Nat) (s : St) :
    AttResult × St :=
  let s4 := pushObs { s with dest := .complete b, temp := none }
  let s5 := if plat = .windows then s4
            else if e.chmodOk = false then emitL .warned s4 else s4
  let r4 := readCancel t s5
  if r4.1 then (.success false, r4.2)
  else
    let s6 := emitL (.progressE .completedMsg) r4.2
    (.success true, emitL (.finishedE true .noError) s6)

/-- The transfer-and-failure body of one attempt whose transfer raises a
transport error: the block loop (which may be interrupted by the cancellation
hook) and then either the hook-cancellation cleanup or the inner/outer
exception handling. -/
def errBody (t : Option Nat) (b : Nat) (m : ErrMsg) (s2 : St) : AttResult × St :=
  let rT := transferLoop t b 0 s2
  if rT.1 then cancelRemove t rT.2
  else failPath t m rT.2

/-- The body of one attempt whose transfer would complete with `b` blocks:
the block loop, the post-transfer cancellation check (252-259), the
empty-file check (261-263), the second mkdir (266), the move (269) and the
success tail. -/
def okBody (plat : Plat) (t : Option Nat) (e : AttemptEnv) (b : Nat) (s2 : St) :
    AttResult × St :=
  let rT := transferLoop t b 0 s2
  if rT.1 then cancelRemove t rT.2
  else
    let r3 := readCancel t rT.2
    if r3.1 then (.cancelled, pushObs { r3.2 with temp := none })
    else
      if b = 0 then failPath t .emptyFile r3.2
      else if e.mkdir2Ok = false then failPath t .destMkdirErr r3.2
      else if e.moveOk = false then failPath t .moveErr r3.2
      else finishPath plat t e b r3.2

/-- One iteration of the attempt loop of `_try_download` (lines 196-302):
cancellation check (198), parent mkdir (202-217), temp creation (240-242),
cancellation check (246), and the transfer bodies above.  The retry message,
backoff and final-failure message of the outer handler (304-323) are
performed by the caller `tryFrom`. -/
def tryAttempt (plat : Plat) (t : Option Nat) (e : AttemptEnv) (u a : Nat) (s : St) :
    AttResult × St :=
  let r0 := readCancel t s
  if r0.1 then (.cancelled, r0.2)
  else
    if e.mkdirOk = false then mkdirFailPath t r0.2
    else
      let s1 := if plat = .linux && e.dirChmodOk = false then emitL .warned r0.2 else r0.2
      let s2 := pushObs { s1 with temp := some 0 }
      let r2 := readCancel t s2
      if r2.1 then (.cancelled, { r2.2 with temp := none, leaked := r2.2.leaked ++ [0] })
      else
        match e.transfer with
        | .err b m => errBody t b m r2.2
        | .ok b => okBody plat t e b r2.2

/-- The backoff sleep loop (lines 311-317): while time remains, read the
cancellation flag (aborting the attempt sequence if set) and sleep one
100 ms slice.  `2 ** attempt` seconds make `10 * 2 ^ attempt` slices. -/
def backoff (t : Option Nat) (u a : Nat) : Nat → St → Bool × St
  | 0, s => (false, s)
  | n + 1, s =>
    let r := readCancel t s
    if r.1 then (true, r.2)
    else backoff t u a n (emitL (.slice u a) r.2)

/-- The attempt loop `for attempt in range(1, max_attempts + 1)` of
`_try_download`, started at attempt `a` with `fuel` iterations left
(callers maintain `a + fuel = maxAtt + 1`).  After a failed attempt that is
not the last one, the retry message is emitted and the backoff performed
(lines 304-317); after the last failed attempt the failure message is
emitted (lines 318-323).  Returns `true` iff some attempt succeeded. -/
def tryFrom (plat : Plat) (t : Option Nat) (env : Nat → Nat → AttemptEnv) (u maxAtt : Nat) :
    Nat → Nat → St → Bool × St
  | _a, 0, s => (false, s)
  | a, fuel + 1, s =>
    match tryAttempt plat t (env u a) u a s with
    | (.success _em, s1) => (true, emitL (.att u a true) s1)
    | (.cancelled, s1) => (false, s1)
    | (.failedErr _m, s1) =>
      let s2 := emitL (.att u a false) s1
      if a < maxAtt then
        let s3 := emitL (.progressE (.retryNotice a maxAtt)) s2
        let rB := backoff t u a (10 * 2 ^ a) s3
        if rB.1 then (false, rB.2) else tryFrom plat t env u maxAtt (a + 1) fuel rB.2
      else (false, emitL (.progressE .failedFrom) s2)

/-- The fallback loop of `run` (lines 174-181): for each fallback URL `j`,
check cancellation (176-178, emitting the cancelled notice and returning),
then `_try_download(fallback_url, 1)`. -/
def fbLoop (plat : Plat) (t : Option Nat) (env : Nat → Nat → AttemptEnv) :
    Nat → Nat → St → FbOut × St
  | _j, 0, s => (.exhausted, s)
  | j, fuel + 1, s =>
    let r := readCancel t s
    if r.1 then (.cancelledO, emitL (.progressE .cancelledNotice) r.2)
    else
      match tryFrom plat t env j 1 1 1 r.2 with
      | (true, s1) => (.successO, s1)
      | (false, s1) => fbLoop plat t env (j + 1) fuel s1

/-- `DownloadWorker.run` (lines 148-191): the starting message, the initial
cancellation check (155-157), `_try_download(self.url, self.retry_count)`
(160), the post-primary cancellation check (163-166), the fallback phase
(168-181) and the all-URLs-failed report (183-186).  URL 0 is the primary
URL and URLs 1..nFallbacks the fallbacks. -/
def runWorker (plat : Plat) (env : Nat → Nat → AttemptEnv) (retries nFallbacks : Nat)
    (t : Option Nat) : St :=
  let s := emitL (.progressE .starting) st0
  let r0 := readCancel t s
  if r0.1 then emitL (.progressE .cancelledNotice) r0.2
  else
    match tryFrom plat t env 0 retries 1 retries r0.2 with
    | (true, s1) => s1
    | (false, s1) =>
      let r1 := readCancel t s1
      if r1.1 then emitL (.progressE .cancelledNotice) r1.2
      else
        let s2 := if nFallbacks = 0 then r1.2 else emitL (.progressE .primaryFailed) r1.2
        match fbLoop plat t env 1 nFallbacks s2 with
        | (.successO, s3) => s3
        | (.cancelledO, s3) => s3
        | (.exhausted, s3) =>
          let r2 := readCancel t s3
          if r2.1 then r2.2
          else emitL (.finishedE false .allUrlsFailed) (emitL (.progressE .allFailed) r2.2)

/-! ### Measures over logs and states -/

/-- The finished signals in a log, in order: the job's ResultEvents. -/
def finishedEvents : List LogE → List (Bool × ErrMsg)
  | [] => []
  | .finishedE b m :: l => (b, m) :: finishedEvents l
  | _ :: l => finishedEvents l

/-- The attempt markers in a log, in order: (url index, attempt number, succeeded). -/
def attsOf : List LogE → List (Nat × Nat × Bool)
  | [] => []
  | .att u a ok :: l => (u, a, ok) :: attsOf l
  | _ :: l => attsOf l

/-- The number of 100 ms backoff slices slept after attempt `a` on URL `u`. -/
def sliceCount (u a : Nat) : List LogE → Nat
  | [] => 0
  | .slice u1 a1 :: l => (if u1 = u ∧ a1 = a then 1 else 0) + sliceCount u a l
  | _ :: l => sliceCount u a l

/-- A destination file state allowed by the atomicity contract: absent, or a
complete non-empty file.  Never truncated, never complete-but-empty. -/
def destOkB : FileSt → Bool
  | .absent => true
  | .truncated _ => false
  | .complete n => decide (0 < n)

/-- The size of the file a transfer would produce. -/
def sizeOfT : Transfer → Nat
  | .ok b => b
  | .err _ _ => 0

/-- Whether an attempt with environment `e` succeeds when no cancellation is
observed: directory creation, a completed non-empty transfer, the second
directory creation and the move must all succeed.  Read off the code path
of `_try_download` lines 202-283. -/
def attSucc (e : AttemptEnv) : Bool :=
  e.mkdirOk && (match e.transfer with | .ok b => decide (0 < b) | .err _ _ => false)
    && e.mkdir2Ok && e.moveOk

/-- The error message of a failed uncancelled attempt, following the code
path order of `_try_download`. -/
def errMsgOf (e : AttemptEnv) : ErrMsg :=
  if e.mkdirOk = false then .mkdirErr
  else
    match e.transfer with
    | .err _ m => m
    | .ok b =>
      if b = 0 then .emptyFile
      else if e.mkdir2Ok = false then .destMkdirErr
      else .moveErr

/-- Whether an attempt result is a success (the attempt returned `True`). -/
def isSuccessR : AttResult → Bool
  | .success _ => true
  | _ => false

/-- Whether a file state is a complete non-empty file. -/
def isCompletePos : FileSt → Bool
  | .complete n => decide (0 < n)
  | _ => false

/-- The log entries appended by an uncancelled transfer of `b` blocks
starting from `w` written blocks. -/
def dlLog : Nat → Nat → List LogE
  | _w, 0 => []
  | w, b + 1 => .progressE (.downloading (w + 1)) :: dlLog (w + 1) b

/-- The trace entries appended by an uncancelled transfer of `b` blocks
starting from `w` written blocks, with destination state `d`. -/
def dlTrace (d : FileSt) : Nat → Nat → List (FileSt × Option Nat)
  | _w, 0 => []
  | w, b + 1 => (d, some (w + 1)) :: dlTrace d (w + 1) b

/-! ### Specification-side attempt sequencing (for the refinement claims)

The following three definitions are modelled from the spec's words, not from
the code: "build an ordered URL list = [primaryURL] + fallbackURLs.  For the
primary URL, attempt up to maxRetries times; for each fallback URL, attempt
exactly once.  Stop at the first attempt that succeeds."  They are compared
with the attempt markers produced by the code model. -/

/-- Modelled from the spec: the attempt list against one URL `u`, starting at
attempt number `a` with `fuel` attempts allowed, stopping at the first
success.  Returns the attempts (url, attempt number, succeeded) and whether
one succeeded. -/
def specTry (succ : Nat → Nat → Bool) (u : Nat) : Nat → Nat → List (Nat × Nat × Bool) × Bool
  | _a, 0 => ([], false)
  | a, fuel + 1 =>
    if succ u a then ([(u, a, true)], true)
    else
      let r := specTry succ u (a + 1) fuel
      ((u, a, false) :: r.1, r.2)

/-- Modelled from the spec: one attempt against each fallback URL starting at
URL index `j`, stopping at the first success. -/
def specFbs (succ : Nat → Nat → Bool) : Nat → Nat → List (Nat × Nat × Bool) × Bool
  | _j, 0 => ([], false)
  | j, fuel + 1 =>
    if succ j 1 then ([(j, 1, true)], true)
    else
      let r := specFbs succ (j + 1) fuel
      ((j, 1, false) :: r.1, r.2)

/-- Modelled from the spec: the full attempt sequence of one job: up to
`retries` attempts against the primary URL 0, then, if none succeeded, one
attempt against each fallback URL 1..`nFallbacks`, stopping at the first
success. -/
def specSeq (succ : Nat → Nat → Bool) (retries nFallbacks : Nat) : List (Nat × Nat × Bool) :=
  let p := specTry succ 0 1 retries
  if p.2 then p.1 else p.1 ++ (specFbs succ 1 nFallbacks).1

/-- Whether some attempt of the job succeeds. -/
def specSucceeded (succ : Nat → Nat → Bool) (retries nFallbacks : Nat) : Bool :=
  (specTry succ 0 1 retries).2 || (specFbs succ 1 nFallbacks).2

/-- Modelled from the spec: "an attempt succeeds iff the transfer completes,
the resulting file is non-empty, and it is not cancelled mid-flight" — for an
uncancelled attempt, just the first two conditions.  Used to compare the
spec's notion of attempt success against the code's. -/
def specAttemptWins (e : AttemptEnv) : Bool :=
  match e.transfer with
  | .ok b => decide (0 < b)
  | .err _ _ => false

/-! ### Concrete attempt environments -/

/-- An attempt environment in which everything succeeds (1-block download). -/
def envOk : AttemptEnv :=
  { mkdirOk := true, dirChmodOk := true, transfer := .ok 1, mkdir2Ok := true,
    moveOk := true, chmodOk := true }

/-- An attempt environment in which everything succeeds with a 5-block download. -/
def envOk5 : AttemptEnv :=
  { mkdirOk := true, dirChmodOk := true, transfer := .ok 5, mkdir2Ok := true,
    moveOk := true, chmodOk := true }

/-- An attempt environment whose transfer raises a transport error at once. -/
def envTransport : AttemptEnv :=
  { mkdirOk := true, dirChmodOk := true, transfer := .err 0 (.transport 7), mkdir2Ok := true,
    moveOk := true, chmodOk := true }

/-- An attempt environment in which the transfer completes non-empty but the
`shutil.move` onto the destination fails. -/
def envMoveFail : AttemptEnv :=
  { mkdirOk := true, dirChmodOk := true, transfer := .ok 5, mkdir2Ok := true,
    moveOk := false, chmodOk := true }

/-- A job in which every attempt on every URL fails with a transport error. -/
def envAllFail : Nat → Nat → AttemptEnv := fun _ _ => envTransport

/-- A job in which every attempt on every URL succeeds. -/
def envAllOk : Nat → Nat → AttemptEnv := fun _ _ => envOk

/-- The retry-policy scenario: the primary URL always fails, every fallback
succeeds on its single attempt. -/
def envPF : Nat → Nat → AttemptEnv := fun u _ => if u = 0 then envTransport else envOk

/-! ### Session model (`BBCSoundDownloaderGUI` bookkeeping) -/

/-- Session aggregate owned by the GUI consumer: the concurrency limit
(`thread_spinbox.value()`, fixed while a run is active), `total_count`,
`finished_count`, `failed_count`, the size of `active_downloads`, the size of
the `samples` backlog, and the number of times `downloads_completed` fired. -/
structure Session where
  limit : Nat
  total : Nat
  finished : Nat
  failed : Nat
  active : Nat
  backlog : Nat
  doneFires : Nat
deriving DecidableEq

/-- `start_next_downloads` (lines 908-945): compute the number of available
threads and admit `min(available, backlogSize)` jobs, moving each from the
backlog to the active set before launching it. -/
def startNext (s : Session) : Session :=
  let available := s.limit - s.active
  let k := min available s.backlog
  { s with active := s.active + k, backlog := s.backlog - k }

/-- `handle_download_result` (lines 814-844): bump the finished or failed
counter, remove the job from the active set, refill the pool via
`start_next_downloads`, and fire `downloads_completed` when no downloads are
active and `finished + failed == total`. -/
def handleResult (ok : Bool) (s : Session) : Session :=
  let s1 := if ok then { s with finished := s.finished + 1 } else { s with failed := s.failed + 1 }
  let s2 := { s1 with active := s1.active - 1 }
  let s3 := startNext s2
  if s3.active = 0 ∧ s3.finished + s3.failed = s3.total then
    { s3 with doneFires := s3.doneFires + 1 }
  else s3

/-- `stop_downloads` (lines 981-1013): set every active worker's cancellation
flag and clear the backlog (`self.samples.clear()`).  Counters and the active
set are left untouched. -/
def stopRun (s : Session) : Session :=
  { s with backlog := 0 }

/-- The session state right after `start_downloads` reset the counters and ran
the initial `start_next_downloads` over `n` loaded samples with limit `l`. -/
def sessionStart (n l : Nat) : Session :=
  startNext
    { limit := l, total := n, finished := 0, failed := 0, active := 0, backlog := n,
      doneFires := 0 }

/-- One observable action processed by the consumer: a terminal download
result taken from the result queue, or the user pressing Stop. -/
inductive Step
  | result (success : Bool)
  | stop
deriving DecidableEq

/-- Process a sequence of actions from a session state. -/
def runTrace (s : Session) : List Step → Session
  | [] => s
  | .result b :: rest => runTrace (handleResult b s) rest
  | .stop :: rest => runTrace (stopRun s) rest

/-- A trace is well formed when every result event arrives while some download
is active (results are only ever produced by admitted jobs). -/
def wfTrace (s : Session) : List Step → Bool
  | [] => true
  | .result b :: rest => decide (0 < s.active) && wfTrace (handleResult b s) rest
  | .stop :: rest => wfTrace (stopRun s) rest

/-- Whether a trace contains no Stop action. -/
def noStop (l : List Step) : Bool :=
  l.all fun x => match x with | .stop => false | _ => true

/-- Outcome of `start_downloads` (lines 863-906).  The constructor
`invalidConfigError` exists only to express the spec's claimed outcome; the
code model never produces it. -/
inductive StartOutcome
  | invalidConfigError
  | notStarted
  | dirError
  | started (s : Session)
deriving DecidableEq

/-- `start_downloads` (lines 863-906): with no loaded samples it logs and
returns; if creating the output directory fails it shows an error and resets
the UI; otherwise it resets the counters and starts the initial batch.  No
configuration validation of any kind is performed. -/
def startDownloads (nSamples spin : Nat) (outDirOk : Bool) : StartOutcome :=
  if nSamples = 0 then .notStarted
  else if outDirOk = false then .dirError
  else .started (sessionStart nSamples spin)

/-- The value a `QSpinBox` with `setRange(1, 20)` (line 469) can report:
values are clamped into the range, so the thread count handed to
`start_downloads` is always at least 1. -/
def clampSpin (v : Nat) : Nat :=
  min 20 (max 1 v)

/-- Whether a `start_downloads` outcome is the `InvalidConfigError` failure
claimed by the spec. -/
def isInvalidCfg : StartOutcome → Bool
  | .invalidConfigError => true
  | _ => false

/-- Admission invariant: the active set is as full as the limit and the
backlog allow.  It implies `active ≤ limit`. -/
def ActInv (s : Session) : Prop :=
  s.active = min s.limit (s.active + s.backlog)

/-- Full session invariant for a run of `n` jobs that is never stopped:
conservation of jobs, the admission invariant, and the completion
notification having fired exactly once iff all jobs have settled. -/
def SessInv (n : Nat) (s : Session) : Prop :=
  s.total = n ∧
  s.finished + s.failed + s.active + s.backlog = n ∧
  s.active = min s.limit (s.active + s.backlog) ∧
  s.doneFires = (if s.finished + s.failed = n ∧ 0 < n then 1 else 0)

/-! ## Session-model lemmas and theorems -/

lemma handleResult_limit (b : Bool) (s : Session) : (handleResult b s).limit = s.limit := by
  unfold handleResult startNext
  dsimp only
  split <;> split <;> rfl

lemma stopRun_limit (s : Session) : (stopRun s).limit = s.limit := rfl

lemma runTrace_limit (steps : List Step) : ∀ s : Session, (runTrace s steps).limit = s.limit := by
  induction steps with
  | nil => intro s; rfl
  | cons x rest ih =>
    intro s
    cases x with
    | result b => rw [runTrace, ih, handleResult_limit]
    | stop => rw [runTrace, ih, stopRun_limit]

lemma actInv_handleResult (b : Bool) (s : Session) (h : ActInv s) :
    ActInv (handleResult b s) := by
  rcases s with ⟨L, T, F, X, A, B, D⟩
  unfold ActInv at h
  dsimp only at h
  unfold ActInv handleResult startNext
  dsimp only
  split <;> dsimp only <;> split <;> dsimp only <;> omega

lemma actInv_stopRun (s : Session) (h : ActInv s) : ActInv (stopRun s) := by
  rcases s with ⟨L, T, F, X, A, B, D⟩
  unfold ActInv at h ⊢
  unfold stopRun
  dsimp only at h ⊢
  omega

lemma actInv_runTrace (steps : List Step) :
    ∀ s : Session, ActInv s → ActInv (runTrace s steps) := by
  induction steps with
  | nil => intro s h; exact h
  | cons x rest ih =>
    intro s h
    cases x with
    | result b => exact ih _ (actInv_handleResult b s h)
    | stop => exact ih _ (actInv_stopRun s h)

lemma actInv_sessionStart (n l : Nat) : ActInv (sessionStart n l) := by
  unfold ActInv sessionStart startNext
  dsimp only
  omega

lemma sessInv_handleResult (n : Nat) (b : Bool) (s : Session) (h : SessInv n s)
    (ha : 0 < s.active) : SessInv n (handleResult b s) := by
  rcases s with ⟨L, T, F, X, A, B, D⟩
  unfold SessInv at h
  dsimp only at h ha
  unfold SessInv handleResult startNext
  rcases h with ⟨h1, h2, h3, h4⟩
  dsimp only
  split <;> dsimp only <;> split <;> dsimp only <;>
    refine ⟨by omega, by omega, by omega, ?_⟩ <;>
    · split at h4 <;> split <;> omega

lemma sessInv_runTrace (steps : List Step) :
    ∀ s : Session, SessInv n s → noStop steps = true → wfTrace s steps = true →
      SessInv n (runTrace s steps) := by
  induction steps with
  | nil => intro s h _ _; exact h
  | cons x rest ih =>
    intro s h hns hwf
    cases x with
    | result b =>
      rw [noStop, List.all_cons] at hns
      rw [wfTrace] at hwf
      rw [Bool.and_eq_true] at hns hwf
      refine ih _ (sessInv_handleResult n b s h (by simpa using hwf.1)) ?_ hwf.2
      exact hns.2
    | stop =>
      rw [noStop, List.all_cons] at hns
      simp at hns

lemma sessInv_sessionStart (n l : Nat) : SessInv n (sessionStart n l) := by
  unfold SessInv sessionStart startNext
  dsimp only
  refine ⟨rfl, by omega, by omega, ?_⟩
  split <;> omega

/-- C4: starting from `start_downloads` over `n` jobs with concurrency limit
`l`, after any sequence of processed terminal events and Stop presses the
number of concurrently executing jobs never exceeds `l`; moreover the active
set is always exactly as full as the limit and the backlog allow, because
admission after every processed event takes `min(limit - activeCount,
backlogSize)` jobs from the backlog into the active set. -/
theorem c4_theorem (n l : Nat) (steps : List Step) :
    (runTrace (sessionStart n l) steps).active ≤ l ∧
    (runTrace (sessionStart n l) steps).active =
      min l ((runTrace (sessionStart n l) steps).active +
        (runTrace (sessionStart n l) steps).backlog) := by
  have hl : (runTrace (sessionStart n l) steps).limit = l := by
    rw [runTrace_limit]
    rfl
  have h := actInv_runTrace steps (sessionStart n l) (actInv_sessionStart n l)
  unfold ActInv at h
  rw [hl] at h
  exact ⟨by omega, h⟩

/-- C6: for any run of `n` jobs that is never stopped, after every processed
event the aggregate satisfies `finished + failed + activeCount + backlogCount
= total`, and the one-time completion notification has fired exactly once iff
the backlog and active set are empty and `finished + failed = total` (for a
run with at least one job). -/
theorem c6_theorem (n l : Nat) (steps : List Step) (hns : noStop steps = true)
    (hwf : wfTrace (sessionStart n l) steps = true) :
    ((runTrace (sessionStart n l) steps).finished +
        (runTrace (sessionStart n l) steps).failed +
        (runTrace (sessionStart n l) steps).active +
        (runTrace (sessionStart n l) steps).backlog = n) ∧
    ((runTrace (sessionStart n l) steps).doneFires = 1 ↔
      (runTrace (sessionStart n l) steps).backlog = 0 ∧
      (runTrace (sessionStart n l) steps).active = 0 ∧
      (runTrace (sessionStart n l) steps).finished +
        (runTrace (sessionStart n l) steps).failed = n ∧ 0 < n) := by
  have h := sessInv_runTrace steps (sessionStart n l) (sessInv_sessionStart n l) hns hwf
  obtain ⟨_h1, h2, _h3, h4⟩ := h
  constructor
  · exact h2
  · constructor
    · intro hf
      split at h4
      · omega
      · omega
    · intro hc
      split at h4
      · omega
      · omega

/-- C6 witness: a two-job run with limit 1, both jobs settling, satisfies the
conservation invariant and fires the completion notification exactly once. -/
theorem c6_witness :
    noStop [Step.result true, Step.result false] = true ∧
    wfTrace (sessionStart 2 1) [Step.result true, Step.result false] = true ∧
    (runTrace (sessionStart 2 1) [Step.result true, Step.result false]).finished +
      (runTrace (sessionStart 2 1) [Step.result true, Step.result false]).failed +
      (runTrace (sessionStart 2 1) [Step.result true, Step.result false]).active +
      (runTrace (sessionStart 2 1) [Step.result true, Step.result false]).backlog = 2 ∧
    (runTrace (sessionStart 2 1) [Step.result true, Step.result false]).doneFires = 1 := by
  refine ⟨by decide, by decide, ?_, ?_⟩
  · exact (c6_theorem 2 1 [Step.result true, Step.result false] (by decide) (by decide)).1
  · exact (c6_theorem 2 1 [Step.result true, Step.result false] (by decide)
      (by decide)).2.mpr (by decide)

/-- C6 counterexample: Stop pressed while one job is in flight and one is
still queued.  The queued job is dropped from the backlog without being
accounted anywhere, so after the in-flight job's already-queued result event
is processed (a well-formed continuation), the aggregate sums to 1 while
`total = 2`: the claimed invariant `finished + failed + activeCount +
backlogCount = total` is false at that observation point. -/
theorem c6_counterexample :
    wfTrace (sessionStart 2 1) [Step.stop, Step.result true] = true ∧
    (runTrace (sessionStart 2 1) [Step.stop, Step.result true]).total = 2 ∧
    (runTrace (sessionStart 2 1) [Step.stop, Step.result true]).finished +
      (runTrace (sessionStart 2 1) [Step.stop, Step.result true]).failed +
      (runTrace (sessionStart 2 1) [Step.stop, Step.result true]).active +
      (runTrace (sessionStart 2 1) [Step.stop, Step.result true]).backlog = 1 ∧
    decide ((runTrace (sessionStart 2 1) [Step.stop, Step.result true]).finished +
      (runTrace (sessionStart 2 1) [Step.stop, Step.result true]).failed +
      (runTrace (sessionStart 2 1) [Step.stop, Step.result true]).active +
      (runTrace (sessionStart 2 1) [Step.stop, Step.result true]).backlog =
      (runTrace (sessionStart 2 1) [Step.stop, Step.result true]).total) = false := by
  decide

/-- C9: `start_downloads` performs no configuration validation: no outcome is
ever the spec's `InvalidConfigError`; with a non-empty loaded sample list and
a creatable output directory the run always starts, whatever the limit; and a
concurrency limit below 1 cannot arise through the UI because the thread-count
spinbox clamps its value into `[1, 20]`. -/
theorem c9_theorem :
    (∀ nS sp : Nat, ∀ ok : Bool, isInvalidCfg (startDownloads nS sp ok) = false) ∧
    (∀ nS sp : Nat, 0 < nS → startDownloads nS sp true = .started (sessionStart nS sp)) ∧
    (∀ v : Nat, 1 ≤ clampSpin v) := by
  refine ⟨?_, ?_, ?_⟩
  · intro nS sp ok
    unfold startDownloads
    split
    · rfl
    · split <;> rfl
  · intro nS sp h
    unfold startDownloads
    rw [if_neg (by omega), if_neg (by decide)]
  · intro v
    unfold clampSpin
    omega

/-- C9 witness: with two loaded samples and limit 5, `start_downloads` starts
the run. -/
theorem c9_witness :
    0 < 2 ∧ startDownloads 2 5 true = .started (sessionStart 2 5) :=
  ⟨by decide, c9_theorem.2.1 2 5 (by decide)⟩

/-- C9 counterexample: submitting with `concurrencyLimit = 0` (below 1,
bypassing the UI spinbox) does not fail with `InvalidConfigError` as the
claim requires — the run simply starts, with an admission step that admits
no job. -/
theorem c9_counterexample :
    startDownloads 1 0 true = .started (sessionStart 1 0) ∧
    decide (startDownloads 1 0 true = StartOutcome.invalidConfigError) = false := by
  decide

/-! ## Worker-model lemmas: log measures -/

@[simp]
lemma finishedEvents_append (l1 l2 : List LogE) :
    finishedEvents (l1 ++ l2) = finishedEvents l1 ++ finishedEvents l2 := by
  induction l1 with
  | nil => rfl
  | cons x l ih => cases x <;> simp [finishedEvents, ih]

@[simp]
lemma attsOf_append (l1 l2 : List LogE) :
    attsOf (l1 ++ l2) = attsOf l1 ++ attsOf l2 := by
  induction l1 with
  | nil => rfl
  | cons x l ih => cases x <;> simp [attsOf, ih]

@[simp]
lemma sliceCount_append (u a : Nat) (l1 l2 : List LogE) :
    sliceCount u a (l1 ++ l2) = sliceCount u a l1 + sliceCount u a l2 := by
  induction l1 with
  | nil => simp [sliceCount]
  | cons x l ih => cases x <;> simp [sliceCount, ih] <;> omega

@[simp]
lemma readTrue_none (i : Nat) : readTrue none i = false := rfl

lemma readTrue_mono (t : Option Nat) (i j : Nat) (hij : i ≤ j) (h : readTrue t i = true) :
    readTrue t j = true := by
  cases t with
  | none => simp [readTrue] at h
  | some k =>
    simp only [readTrue, decide_eq_true_eq] at h ⊢
    omega

@[simp]
lemma attsOf_dlLog (w b : Nat) : attsOf (dlLog w b) = [] := by
  induction b generalizing w with
  | zero => rfl
  | succ b ih => simp [dlLog, attsOf, ih]

@[simp]
lemma finishedEvents_dlLog (w b : Nat) : finishedEvents (dlLog w b) = [] := by
  induction b generalizing w with
  | zero => rfl
  | succ b ih => simp [dlLog, finishedEvents, ih]

@[simp]
lemma sliceCount_dlLog (u a w b : Nat) : sliceCount u a (dlLog w b) = 0 := by
  induction b generalizing w with
  | zero => rfl
  | succ b ih => simp [dlLog, sliceCount, ih]

lemma dlTrace_fst (d : FileSt) (w b : Nat) : ∀ o ∈ dlTrace d w b, o.1 = d := by
  induction b generalizing w with
  | zero => intro o ho; simp [dlTrace] at ho
  | succ b ih =>
    intro o ho
    simp only [dlTrace, List.mem_cons] at ho
    rcases ho with h | h
    · rw [h]
    · exact ih (w + 1) o h

@[simp]
lemma attsOf_replicate_slice (n u a : Nat) :
    attsOf (List.replicate n (.slice u a)) = [] := by
  induction n with
  | zero => rfl
  | succ n ih => simp [List.replicate_succ, attsOf, ih]

@[simp]
lemma finishedEvents_replicate_slice (n u a : Nat) :
    finishedEvents (List.replicate n (.slice u a)) = [] := by
  induction n with
  | zero => rfl
  | succ n ih => simp [List.replicate_succ, finishedEvents, ih]

lemma sliceCount_replicate_slice (n u a u1 a1 : Nat) :
    sliceCount u1 a1 (List.replicate n (.slice u a)) =
      if u = u1 ∧ a = a1 then n else 0 := by
  induction n with
  | zero => simp [sliceCount]
  | succ n ih => simp only [List.replicate_succ, sliceCount, ih]; split <;> omega

/-! ## Worker-model lemmas: the uncancelled regime -/

lemma transferLoop_none (b : Nat) : ∀ (w : Nat) (s : St), s.temp = some w →
    transferLoop none b w s =
      (false, { s with
                  cnt := s.cnt + b,
                  temp := some (w + b),
                  log := s.log ++ dlLog w b,
                  trace := s.trace ++ dlTrace s.dest w b }) := by
  induction b with
  | zero =>
    intro w s h
    obtain ⟨c0, d0, tp0, lk0, lg0, tr0⟩ := s
    dsimp only at h
    subst h
    simp [transferLoop, dlLog, dlTrace]
  | succ b ih =>
    intro w s h
    obtain ⟨c0, d0, tp0, lk0, lg0, tr0⟩ := s
    dsimp only at h
    subst h
    rw [transferLoop]
    simp only [readCancel, readTrue_none, Bool.false_eq_true, if_false, emitL, pushObs]
    rw [ih (w + 1) _ rfl]
    simp [dlLog, dlTrace, St.mk.injEq, Option.some.injEq, List.append_assoc]
    all_goals omega

lemma backoff_none (u a : Nat) : ∀ (n : Nat) (s : St),
    backoff none u a n s =
      (false, { s with
                  cnt := s.cnt + n,
                  log := s.log ++ List.replicate n (.slice u a) }) := by
  intro n
  induction n with
  | zero =>
    intro s
    obtain ⟨c0, d0, tp0, lk0, lg0, tr0⟩ := s
    simp [backoff]
  | succ n ih =>
    intro s
    obtain ⟨c0, d0, tp0, lk0, lg0, tr0⟩ := s
    rw [backoff]
    simp only [readCancel, readTrue_none, Bool.false_eq_true, if_false, emitL]
    rw [ih]
    simp [List.replicate_succ, St.mk.injEq, List.append_assoc]
    all_goals omega

lemma tryAttempt_none (plat : Plat) (e : AttemptEnv) (u a : Nat) (s : St) (h : s.temp = none) :
    (tryAttempt plat none e u a s).1 =
      (if attSucc e then AttResult.success true else .failedErr (errMsgOf e)) ∧
    (tryAttempt plat none e u a s).2.temp = none ∧
    (tryAttempt plat none e u a s).2.leaked = s.leaked ∧
    (tryAttempt plat none e u a s).2.dest =
      (if attSucc e then FileSt.complete (sizeOfT e.transfer) else s.dest) ∧
    attsOf (tryAttempt plat none e u a s).2.log = attsOf s.log ∧
    (∀ u1 a1, sliceCount u1 a1 (tryAttempt plat none e u a s).2.log = sliceCount u1 a1 s.log) ∧
    finishedEvents (tryAttempt plat none e u a s).2.log =
      finishedEvents s.log ++ (if attSucc e then [(true, ErrMsg.noError)] else []) := by
  obtain ⟨mk, dch, tr, mk2, mv, ch⟩ := e
  obtain ⟨c0, d0, tp0, lk0, lg0, tr0⟩ := s
  dsimp only at h
  subst h
  cases tr with
  | err b m =>
    cases mk <;> cases plat <;> cases dch <;>
      simp [tryAttempt, errBody, okBody, cancelRemove, failPath, mkdirFailPath, finishPath, readCancel,
        emitL, pushObs, attSucc, errMsgOf, sizeOfT, transferLoop_none, attsOf,
        finishedEvents, sliceCount]
  | ok b =>
    cases b with
    | zero =>
      cases mk <;> cases plat <;> cases dch <;>
        simp [tryAttempt, errBody, okBody, cancelRemove, failPath, mkdirFailPath, finishPath, readCancel,
          emitL, pushObs, attSucc, errMsgOf, sizeOfT, transferLoop_none, attsOf,
          finishedEvents, sliceCount]
    | succ b1 =>
      cases mk <;> cases mk2 <;> cases mv <;> cases plat <;> cases dch <;> cases ch <;>
        simp [tryAttempt, errBody, okBody, cancelRemove, failPath, mkdirFailPath, finishPath, readCancel,
          emitL, pushObs, attSucc, errMsgOf, sizeOfT, transferLoop_none, attsOf,
          finishedEvents, sliceCount]

lemma attSucc_pos (e : AttemptEnv) (h : attSucc e = true) : 0 < sizeOfT e.transfer := by
  obtain ⟨mk, dch, tr, mk2, mv, ch⟩ := e
  cases tr with
  | ok b =>
    simp only [attSucc, Bool.and_eq_true, decide_eq_true_eq] at h
    simpa [sizeOfT] using h.1.1.2
  | err b m => simp [attSucc] at h

lemma specTry_mem (succ : Nat → Nat → Bool) (u : Nat) :
    ∀ (fuel a : Nat), ∀ x ∈ (specTry succ u a fuel).1, x.1 = u ∧ a ≤ x.2.1 := by
  intro fuel
  induction fuel with
  | zero => intro a x hx; simp [specTry] at hx
  | succ fuel ih =>
    intro a x hx
    rw [specTry] at hx
    by_cases hs : succ u a = true
    · rw [if_pos hs] at hx
      simp only [List.mem_singleton] at hx
      subst hx
      exact ⟨rfl, le_refl a⟩
    · rw [if_neg hs] at hx
      simp only [List.mem_cons] at hx
      rcases hx with hx | hx
      · subst hx
        exact ⟨rfl, le_refl a⟩
      · obtain ⟨h1, h2⟩ := ih (a + 1) x hx
        exact ⟨h1, by omega⟩


lemma tryFrom_none (plat : Plat) (env : Nat → Nat → AttemptEnv) (u maxAtt : Nat) :
    ∀ (fuel a : Nat) (s : St), a + fuel = maxAtt + 1 → s.temp = none →
    (tryFrom plat none env u maxAtt a fuel s).1 =
      (specTry (fun u1 a1 => attSucc (env u1 a1)) u a fuel).2 ∧
    (tryFrom plat none env u maxAtt a fuel s).2.temp = none ∧
    (tryFrom plat none env u maxAtt a fuel s).2.leaked = s.leaked ∧
    ((tryFrom plat none env u maxAtt a fuel s).1 = true →
      ∃ bs, 0 < bs ∧ (tryFrom plat none env u maxAtt a fuel s).2.dest = .complete bs) ∧
    ((tryFrom plat none env u maxAtt a fuel s).1 = false →
      (tryFrom plat none env u maxAtt a fuel s).2.dest = s.dest) ∧
    attsOf (tryFrom plat none env u maxAtt a fuel s).2.log =
      attsOf s.log ++ (specTry (fun u1 a1 => attSucc (env u1 a1)) u a fuel).1 ∧
    (∀ u1 a1, sliceCount u1 a1 (tryFrom plat none env u maxAtt a fuel s).2.log =
      sliceCount u1 a1 s.log +
        (if (u1, a1, false) ∈ (specTry (fun u2 a2 => attSucc (env u2 a2)) u a fuel).1 ∧
            a1 < maxAtt then 10 * 2 ^ a1 else 0)) ∧
    finishedEvents (tryFrom plat none env u maxAtt a fuel s).2.log =
      finishedEvents s.log ++
        (if (specTry (fun u1 a1 => attSucc (env u1 a1)) u a fuel).2 then
          [(true, ErrMsg.noError)] else []) := by
  intro fuel
  induction fuel with
  | zero =>
    intro a s ha hs
    simp [tryFrom, specTry, hs]
  | succ fuel ih =>
    intro a s ha hs
    obtain ⟨h1, h2, h3, h4, h5, h6, h7⟩ := tryAttempt_none plat (env u a) u a s hs
    rcases hA : tryAttempt plat none (env u a) u a s with ⟨res, s1⟩
    rw [hA] at h1 h2 h3 h4 h5 h6 h7
    dsimp only at h1 h2 h3 h4 h5 h6 h7
    by_cases hsc : attSucc (env u a) = true
    · rw [if_pos hsc] at h1 h4 h7
      subst h1
      rw [tryFrom, hA]
      dsimp only
      rw [specTry, if_pos hsc]
      have hpos : 0 < sizeOfT (env u a).transfer := attSucc_pos _ hsc
      refine ⟨rfl, by simpa [emitL] using h2, by simpa [emitL] using h3, ?_, ?_, ?_, ?_, ?_⟩
      · intro _
        exact ⟨sizeOfT (env u a).transfer, hpos, by simpa [emitL] using h4⟩
      · intro hcon
        exact absurd hcon (by simp)
      · simp [emitL, h5, attsOf]
      · intro u1 a1
        simp [emitL, h6, sliceCount]
      · simp [emitL, h7, finishedEvents]
    · rw [if_neg hsc] at h1 h4 h7
      rw [Bool.not_eq_true] at hsc
      subst h1
      rw [tryFrom, hA]
      dsimp only
      rw [specTry, if_neg (by simp [hsc] : ¬(attSucc (env u a) = true))]
      by_cases hlt : a < maxAtt
      · rw [if_pos hlt]
        rw [backoff_none]
        dsimp only
        rw [if_neg (by simp)]
        have hrec := ih (a + 1)
          { emitL (.progressE (.retryNotice a maxAtt)) (emitL (.att u a false) s1) with
              cnt := (emitL (.progressE (.retryNotice a maxAtt)) (emitL (.att u a false) s1)).cnt +
                10 * 2 ^ a,
              log := (emitL (.progressE (.retryNotice a maxAtt)) (emitL (.att u a false) s1)).log ++
                List.replicate (10 * 2 ^ a) (.slice u a) }
          (by omega) (by simpa [emitL] using h2)
        obtain ⟨g1, g2, g3, g4, g5, g6, g7, g8⟩ := hrec
        refine ⟨g1, g2, ?_, ?_, ?_, ?_, ?_, ?_⟩
        · rw [g3]
          simpa [emitL] using h3
        · intro ht
          exact g4 ht
        · intro hf
          rw [g5 hf]
          simpa [emitL] using h4
        · rw [g6]
          simp [emitL, h5, attsOf]
        · intro u1 a1
          rw [g7 u1 a1]
          simp only [emitL]
          rw [sliceCount_append, sliceCount_append, sliceCount_append,
            sliceCount_replicate_slice]
          by_cases hm : u1 = u ∧ a1 = a
          · obtain ⟨hm1, hm2⟩ := hm
            subst hm1
            subst hm2
            have hnm : ((u1, a1, false) ∈
                (specTry (fun u2 a2 => attSucc (env u2 a2)) u1 (a1 + 1) fuel).1 ∧
                a1 < maxAtt) → False := by
              rintro ⟨hmem, _⟩
              have hx := specTry_mem (fun u2 a2 => attSucc (env u2 a2)) u1 fuel (a1 + 1)
                (u1, a1, false) hmem
              dsimp only at hx
              omega
            rw [if_neg hnm]
            rw [if_pos (And.intro (List.mem_cons_self _ _) hlt :
              (u1, a1, false) ∈ ((u1, a1, false) ::
                (specTry (fun u2 a2 => attSucc (env u2 a2)) u1 (a1 + 1) fuel).1) ∧
              a1 < maxAtt)]
            rw [if_pos (And.intro rfl rfl : u1 = u1 ∧ a1 = a1)]
            simp [sliceCount, h6]
          · have hm2 : ¬(u = u1 ∧ a = a1) := fun hand => hm ⟨hand.1.symm, hand.2.symm⟩
            rw [if_neg hm2]
            have hiff : ((u1, a1, false) ∈
                  ((u, a, false) :: (specTry (fun u2 a2 => attSucc (env u2 a2)) u (a + 1) fuel).1) ∧
                  a1 < maxAtt) ↔
                ((u1, a1, false) ∈ (specTry (fun u2 a2 => attSucc (env u2 a2)) u (a + 1) fuel).1 ∧
                  a1 < maxAtt) := by
              constructor
              · rintro ⟨hmem, hl⟩
                rcases List.mem_cons.mp hmem with he | hmem2
                · exfalso
                  apply hm
                  have he2 := Prod.mk.injEq .. ▸ he
                  simp at he2
                  exact ⟨he2.1, he2.2⟩
                · exact ⟨hmem2, hl⟩
              · rintro ⟨hmem, hl⟩
                exact ⟨List.mem_cons_of_mem _ hmem, hl⟩
            rw [if_congr hiff rfl rfl]
            simp [sliceCount, h6]
        · rw [g8]
          simp only [emitL]
          rw [finishedEvents_append, finishedEvents_append, finishedEvents_append,
            finishedEvents_replicate_slice]
          simp [finishedEvents, h7]
      · rw [if_neg hlt]
        have hf0 : fuel = 0 := by omega
        subst hf0
        refine ⟨rfl, by simpa [emitL] using h2, by simpa [emitL] using h3, ?_, ?_, ?_, ?_, ?_⟩
        · intro hcon
          exact absurd hcon (by simp)
        · intro _
          simpa [emitL] using h4
        · simp [emitL, h5, attsOf, specTry]
        · intro u1 a1
          have hno : ¬((u1, a1, false) ∈
                ((u, a, false) :: (specTry (fun u2 a2 => attSucc (env u2 a2)) u (a + 1) 0).1) ∧
                a1 < maxAtt) := by
            rintro ⟨hmem, hl⟩
            simp [specTry] at hmem
            omega
          rw [if_neg hno]
          simp [emitL, sliceCount, h6]
        · simp [emitL, finishedEvents, h7, specTry]

lemma specFbs_mem (succ : Nat → Nat → Bool) :
    ∀ (fuel j : Nat), ∀ x ∈ (specFbs succ j fuel).1, j ≤ x.1 ∧ x.2.1 = 1 := by
  intro fuel
  induction fuel with
  | zero => intro j x hx; simp [specFbs] at hx
  | succ fuel ih =>
    intro j x hx
    rw [specFbs] at hx
    by_cases hs : succ j 1 = true
    · rw [if_pos hs] at hx
      simp only [List.mem_singleton] at hx
      subst hx
      exact ⟨le_refl j, rfl⟩
    · rw [if_neg hs] at hx
      simp only [List.mem_cons] at hx
      rcases hx with hx | hx
      · subst hx
        exact ⟨le_refl j, rfl⟩
      · obtain ⟨h1, h2⟩ := ih (j + 1) x hx
        exact ⟨by omega, h2⟩

lemma fbLoop_none (plat : Plat) (env : Nat → Nat → AttemptEnv) :
    ∀ (fuel j : Nat) (s : St), s.temp = none →
    (fbLoop plat none env j fuel s).1 =
      (if (specFbs (fun u1 a1 => attSucc (env u1 a1)) j fuel).2 then FbOut.successO
        else FbOut.exhausted) ∧
    (fbLoop plat none env j fuel s).2.temp = none ∧
    (fbLoop plat none env j fuel s).2.leaked = s.leaked ∧
    ((fbLoop plat none env j fuel s).1 = FbOut.successO →
      ∃ bs, 0 < bs ∧ (fbLoop plat none env j fuel s).2.dest = .complete bs) ∧
    ((fbLoop plat none env j fuel s).1 = FbOut.exhausted →
      (fbLoop plat none env j fuel s).2.dest = s.dest) ∧
    attsOf (fbLoop plat none env j fuel s).2.log =
      attsOf s.log ++ (specFbs (fun u1 a1 => attSucc (env u1 a1)) j fuel).1 ∧
    (∀ u1 a1, sliceCount u1 a1 (fbLoop plat none env j fuel s).2.log =
      sliceCount u1 a1 s.log) ∧
    finishedEvents (fbLoop plat none env j fuel s).2.log =
      finishedEvents s.log ++
        (if (specFbs (fun u1 a1 => attSucc (env u1 a1)) j fuel).2 then
          [(true, ErrMsg.noError)] else []) := by
  intro fuel
  induction fuel with
  | zero =>
    intro j s hs
    simp [fbLoop, specFbs, hs]
  | succ fuel ih =>
    intro j s hs
    rw [fbLoop]
    simp only [readCancel, readTrue_none, Bool.false_eq_true, if_false]
    have hT := tryFrom_none plat env j 1 1 1 { s with cnt := s.cnt + 1 } (by omega) (by simpa using hs)
    rcases hA : tryFrom plat none env j 1 1 1 { s with cnt := s.cnt + 1 } with ⟨tres, s1⟩
    rw [hA] at hT
    obtain ⟨f1, f2, f3, f4, f5, f6, f7, f8⟩ := hT
    dsimp only at f1 f2 f3 f4 f5 f6 f7 f8
    rw [specFbs]
    by_cases hj : attSucc (env j 1) = true
    · have hflag : (specTry (fun u1 a1 => attSucc (env u1 a1)) j 1 1).2 = true := by
        simp [specTry, hj]
      rw [hflag] at f1
      subst f1
      rw [if_pos hj]
      dsimp only
      refine ⟨rfl, f2, f3, ?_, ?_, ?_, ?_, ?_⟩
      · intro _
        exact f4 rfl
      · intro hcon
        exact absurd hcon (by simp)
      · rw [f6]
        simp [specTry, hj]
      · intro u1 a1
        rw [f7 u1 a1]
        have : ¬((u1, a1, false) ∈
            (specTry (fun u2 a2 => attSucc (env u2 a2)) j 1 1).1 ∧ a1 < 1) := by
          rintro ⟨hmem, hl⟩
          have hx := specTry_mem (fun u2 a2 => attSucc (env u2 a2)) j 1 1 _ hmem
          dsimp only at hx
          omega
        rw [if_neg this]
        try simp
      · rw [f8, hflag]
        try simp
    · have hflag : (specTry (fun u1 a1 => attSucc (env u1 a1)) j 1 1).2 = false := by
        simp [specTry, hj]
      rw [hflag] at f1
      subst f1
      rw [if_neg hj]
      dsimp only
      have hrec := ih (j + 1) s1 f2
      obtain ⟨g1, g2, g3, g4, g5, g6, g7, g8⟩ := hrec
      refine ⟨g1, g2, ?_, g4, ?_, ?_, ?_, ?_⟩
      · rw [g3, f3]
        try simp
      · intro hx
        rw [g5 hx, f5 rfl]
        try simp
      · rw [g6, f6]
        have hsingle : (specTry (fun u1 a1 => attSucc (env u1 a1)) j 1 1).1 = [(j, 1, false)] := by
          simp [specTry, hj]
        rw [hsingle]
        try simp
      · intro u1 a1
        rw [g7 u1 a1, f7 u1 a1]
        have : ¬((u1, a1, false) ∈
            (specTry (fun u2 a2 => attSucc (env u2 a2)) j 1 1).1 ∧ a1 < 1) := by
          rintro ⟨hmem, hl⟩
          have hx := specTry_mem (fun u2 a2 => attSucc (env u2 a2)) j 1 1 _ hmem
          dsimp only at hx
          omega
        rw [if_neg this]
        try simp
      · rw [g8, f8, hflag]
        try simp

lemma runWorker_none (plat : Plat) (env : Nat → Nat → AttemptEnv) (retries nFallbacks : Nat) :
    (runWorker plat env retries nFallbacks none).temp = none ∧
    (runWorker plat env retries nFallbacks none).leaked = [] ∧
    attsOf (runWorker plat env retries nFallbacks none).log =
      specSeq (fun u1 a1 => attSucc (env u1 a1)) retries nFallbacks ∧
    (∀ u1 a1, sliceCount u1 a1 (runWorker plat env retries nFallbacks none).log =
      (if (u1, a1, false) ∈ specSeq (fun u2 a2 => attSucc (env u2 a2)) retries nFallbacks ∧
          u1 = 0 ∧ a1 < retries then 10 * 2 ^ a1 else 0)) ∧
    finishedEvents (runWorker plat env retries nFallbacks none).log =
      (if specSucceeded (fun u1 a1 => attSucc (env u1 a1)) retries nFallbacks then
        [(true, ErrMsg.noError)] else [(false, ErrMsg.allUrlsFailed)]) ∧
    (specSucceeded (fun u1 a1 => attSucc (env u1 a1)) retries nFallbacks = true →
      ∃ bs, 0 < bs ∧ (runWorker plat env retries nFallbacks none).dest = .complete bs) ∧
    (specSucceeded (fun u1 a1 => attSucc (env u1 a1)) retries nFallbacks = false →
      (runWorker plat env retries nFallbacks none).dest = FileSt.absent) := by
  rw [runWorker]
  simp only [readCancel, readTrue_none, Bool.false_eq_true, if_false, emitL, st0,
    zero_add, List.nil_append]
  have hP := tryFrom_none plat env 0 retries retries 1
    ({ cnt := 1, dest := .absent, temp := none, leaked := [],
       log := [.progressE .starting],
       trace := [(.absent, none)] } : St) (by omega) rfl
  rcases hA : tryFrom plat none env 0 retries 1 retries
      { cnt := 1, dest := .absent, temp := none, leaked := [], log := [.progressE .starting],
        trace := [(.absent, none)] } with ⟨pres, s1⟩
  rw [hA] at hP
  obtain ⟨f1, f2, f3, f4, f5, f6, f7, f8⟩ := hP
  dsimp only at f1 f2 f3 f4 f5 f6 f7 f8
  cases pres with
  | true =>
    have hp2 : (specTry (fun u1 a1 => attSucc (env u1 a1)) 0 1 retries).2 = true := f1.symm
    have hsuc : specSucceeded (fun u1 a1 => attSucc (env u1 a1)) retries nFallbacks = true := by
      simp [specSucceeded, hp2]
    dsimp only
    rw [specSeq, if_pos hp2]
    refine ⟨f2, by simpa using f3, ?_, ?_, ?_, ?_, ?_⟩
    · rw [f6]
      simp [attsOf]
    · intro u1 a1
      rw [f7 u1 a1]
      have hiff : ((u1, a1, false) ∈
            (specTry (fun u2 a2 => attSucc (env u2 a2)) 0 1 retries).1 ∧ a1 < retries) ↔
          ((u1, a1, false) ∈ (specTry (fun u2 a2 => attSucc (env u2 a2)) 0 1 retries).1 ∧
            u1 = 0 ∧ a1 < retries) := by
        constructor
        · rintro ⟨hmem, hl⟩
          have hx := specTry_mem (fun u2 a2 => attSucc (env u2 a2)) 0 retries 1 _ hmem
          dsimp only at hx
          exact ⟨hmem, hx.1, hl⟩
        · rintro ⟨hmem, _, hl⟩
          exact ⟨hmem, hl⟩
      rw [if_congr hiff rfl rfl]
      simp [sliceCount]
    · rw [f8, hp2, hsuc]
      simp [finishedEvents]
    · intro _
      exact f4 rfl
    · intro hcon
      rw [hsuc] at hcon
      exact absurd hcon (by simp)
  | false =>
    have hp2 : (specTry (fun u1 a1 => attSucc (env u1 a1)) 0 1 retries).2 = false := f1.symm
    dsimp only
    have hS2 : ∀ s2 : St,
        s2 = (if nFallbacks = 0 then
          { cnt := s1.cnt + 1, dest := s1.dest, temp := s1.temp, leaked := s1.leaked,
            log := s1.log, trace := s1.trace }
        else
          { cnt := s1.cnt + 1, dest := s1.dest, temp := s1.temp, leaked := s1.leaked,
            log := s1.log ++ [LogE.progressE Msg.primaryFailed], trace := s1.trace }) →
        s2.temp = s1.temp ∧ s2.leaked = s1.leaked ∧ s2.dest = s1.dest ∧
        attsOf s2.log = attsOf s1.log ∧
        (∀ u1 a1, sliceCount u1 a1 s2.log = sliceCount u1 a1 s1.log) ∧
        finishedEvents s2.log = finishedEvents s1.log := by
      intro s2 hs2
      by_cases hnf : nFallbacks = 0 <;>
        simp [hnf] at hs2 <;> subst hs2 <;> simp [attsOf, sliceCount, finishedEvents]
    obtain ⟨e1, e2, e3, e4, e5, e6⟩ := hS2 _ rfl
    have hF := fbLoop_none plat env nFallbacks 1 _ (e1.trans f2)
    rcases hB : fbLoop plat none env 1 nFallbacks
        (if nFallbacks = 0 then
          { cnt := s1.cnt + 1, dest := s1.dest, temp := s1.temp, leaked := s1.leaked,
            log := s1.log, trace := s1.trace }
        else
          { cnt := s1.cnt + 1, dest := s1.dest, temp := s1.temp, leaked := s1.leaked,
            log := s1.log ++ [LogE.progressE Msg.primaryFailed], trace := s1.trace })
      with ⟨fres, s3⟩
    rw [hB] at hF
    obtain ⟨g1, g2, g3, g4, g5, g6, g7, g8⟩ := hF
    dsimp only at g1 g2 g3 g4 g5 g6 g7 g8
    have hseq : specSeq (fun u1 a1 => attSucc (env u1 a1)) retries nFallbacks =
        (specTry (fun u1 a1 => attSucc (env u1 a1)) 0 1 retries).1 ++
          (specFbs (fun u1 a1 => attSucc (env u1 a1)) 1 nFallbacks).1 := by
      rw [specSeq, if_neg (by simp [hp2])]
    have hsuc : specSucceeded (fun u1 a1 => attSucc (env u1 a1)) retries nFallbacks =
        (specFbs (fun u1 a1 => attSucc (env u1 a1)) 1 nFallbacks).2 := by
      simp [specSucceeded, hp2]
    have hslice : ∀ u1 a1,
        ((u1, a1, false) ∈ specSeq (fun u2 a2 => attSucc (env u2 a2)) retries nFallbacks ∧
          u1 = 0 ∧ a1 < retries) ↔
        ((u1, a1, false) ∈ (specTry (fun u2 a2 => attSucc (env u2 a2)) 0 1 retries).1 ∧
          a1 < retries) := by
      intro u1 a1
      rw [hseq]
      constructor
      · rintro ⟨hmem, hu, hl⟩
        rcases List.mem_append.mp hmem with hm1 | hm2
        · exact ⟨hm1, hl⟩
        · exfalso
          have hx := specFbs_mem (fun u2 a2 => attSucc (env u2 a2)) nFallbacks 1 _ hm2
          dsimp only at hx
          omega
      · rintro ⟨hmem, hl⟩
        have hx := specTry_mem (fun u2 a2 => attSucc (env u2 a2)) 0 retries 1 _ hmem
        dsimp only at hx
        exact ⟨List.mem_append.mpr (Or.inl hmem), hx.1, hl⟩
    cases fres with
    | successO =>
      have hfb : (specFbs (fun u1 a1 => attSucc (env u1 a1)) 1 nFallbacks).2 = true := by
        cases hx : (specFbs (fun u1 a1 => attSucc (env u1 a1)) 1 nFallbacks).2 with
        | true => rfl
        | false => rw [hx] at g1; simp at g1
      dsimp only
      refine ⟨g2, ?_, ?_, ?_, ?_, ?_, ?_⟩
      · rw [g3, e2]
        simpa using f3
      · rw [g6, e4, f6, hseq]
        simp [attsOf]
      · intro u1 a1
        rw [g7 u1 a1, e5 u1 a1, f7 u1 a1]
        rw [if_congr (hslice u1 a1) rfl rfl]
        simp [sliceCount]
      · rw [g8, e6, f8, hp2, hfb, hsuc, hfb]
        simp [finishedEvents]
      · intro _
        exact g4 rfl
      · intro hcon
        rw [hsuc, hfb] at hcon
        exact absurd hcon (by simp)
    | cancelledO =>
      exfalso
      by_cases hfb : (specFbs (fun u1 a1 => attSucc (env u1 a1)) 1 nFallbacks).2 = true <;>
        simp [hfb] at g1
    | exhausted =>
      have hfb : (specFbs (fun u1 a1 => attSucc (env u1 a1)) 1 nFallbacks).2 = false := by
        cases hx : (specFbs (fun u1 a1 => attSucc (env u1 a1)) 1 nFallbacks).2 with
        | false => rfl
        | true => rw [hx] at g1; simp at g1
      dsimp only
      refine ⟨g2, ?_, ?_, ?_, ?_, ?_, ?_⟩
      · rw [g3, e2]
        simpa using f3
      · rw [attsOf_append, attsOf_append, g6, e4, f6, hseq]
        simp [attsOf]
      · intro u1 a1
        rw [sliceCount_append, sliceCount_append, g7 u1 a1, e5 u1 a1, f7 u1 a1]
        rw [if_congr (hslice u1 a1) rfl rfl]
        simp [sliceCount]
      · rw [finishedEvents_append, finishedEvents_append, g8, e6, f8, hp2, hfb, hsuc, hfb]
        simp [finishedEvents]
      · intro hcon
        rw [hsuc, hfb] at hcon
        exact absurd hcon (by simp)
      · intro _
        rw [g5 rfl, e3, f5 rfl]

lemma specTry_allfail (succ : Nat → Nat → Bool) (u : Nat) (h : ∀ a1, succ u a1 = false) :
    ∀ (fuel a : Nat), specTry succ u a fuel =
      ((List.range fuel).map (fun i => (u, a + i, false)), false) := by
  intro fuel
  induction fuel with
  | zero => intro a; simp [specTry]
  | succ fuel ih =>
    intro a
    rw [specTry, if_neg (by simp [h a])]
    rw [ih (a + 1)]
    simp only [List.range_succ_eq_map, List.map_cons, List.map_map, Nat.add_zero]
    refine Prod.ext ?_ rfl
    dsimp only
    refine congrArg (fun l => (u, a, false) :: l) ?_
    refine List.map_congr_left ?_
    intro i _
    simp [Function.comp]
    omega

lemma specFbs_allfail (succ : Nat → Nat → Bool) (h : ∀ j, succ j 1 = false) :
    ∀ (fuel j : Nat), (specFbs succ j fuel).2 = false := by
  intro fuel
  induction fuel with
  | zero => intro j; simp [specFbs]
  | succ fuel ih =>
    intro j
    rw [specFbs, if_neg (by simp [h j])]
    exact ih (j + 1)

/-- C3: the attempt order of every uncancelled job is exactly the spec's
sequencing — the ordered URL list `[primary] + fallbacks` with up to
`maxRetries` attempts against the primary and exactly one attempt per
fallback, stopping at the first success (refinement of the code's attempt
log against the spec-modelled sequence); consequently a job whose primary
always fails and whose first fallback always succeeds performs exactly
`maxRetries` failed primary attempts followed by one successful fallback
attempt, in that order. -/
theorem c3_theorem :
    (∀ (plat : Plat) (env : Nat → Nat → AttemptEnv) (retries nFallbacks : Nat),
      attsOf (runWorker plat env retries nFallbacks none).log =
        specSeq (fun u1 a1 => attSucc (env u1 a1)) retries nFallbacks) ∧
    (∀ r : Nat, 1 ≤ r →
      attsOf (runWorker .linux envPF r 2 none).log =
        (List.range r).map (fun i => (0, i + 1, false)) ++ [(1, 1, true)]) := by
  constructor
  · intro plat env retries nFallbacks
    exact (runWorker_none plat env retries nFallbacks).2.2.1
  · intro r _hr
    rw [(runWorker_none .linux envPF r 2).2.2.1]
    have hfail : ∀ a1, (fun u1 a1 => attSucc (envPF u1 a1)) 0 a1 = false := by
      intro a1
      simp [envPF, envTransport, attSucc]
    rw [specSeq, specTry_allfail _ 0 hfail r 1, if_neg (by simp)]
    have hfb : specFbs (fun u1 a1 => attSucc (envPF u1 a1)) 1 2 = ([(1, 1, true)], true) := by
      rw [specFbs, if_pos (by simp [envPF, envOk, attSucc])]
    rw [hfb]
    dsimp only
    refine congrArg (fun l => l ++ [((1 : Nat), (1 : Nat), true)]) ?_
    refine List.map_congr_left ?_
    intro i _
    refine Prod.ext rfl (Prod.ext ?_ rfl)
    dsimp only
    omega

/-- C3 witness: with `maxRetries = 3` the attempt log is three failed primary
attempts followed by the successful first-fallback attempt. -/
theorem c3_witness :
    1 ≤ 3 ∧ attsOf (runWorker .linux envPF 3 2 none).log =
      (List.range 3).map (fun i => (0, i + 1, false)) ++ [(1, 1, true)] :=
  ⟨by decide, c3_theorem.2 3 (by decide)⟩

/-- C8: in every uncancelled run, backoff sleep slices for attempt `a` on URL
`u` are present exactly when that attempt occurred, failed, was against the
primary URL, and was not that URL's final attempt — `10 * 2 ^ a` slices of
100 ms, i.e. `2 ^ a` seconds; never after the final primary attempt and never
for a fallback URL.  And a cancellation issued during a backoff stops the
sleep at the next 100 ms slice boundary and abandons the attempt sequence:
with the flag set before the 11th read, the worker sleeps only 5 of the 20
scheduled slices, performs no further attempt, and emits no finished
signal. -/
theorem c8_theorem :
    (∀ (plat : Plat) (env : Nat → Nat → AttemptEnv) (retries nFallbacks u1 a1 : Nat),
      sliceCount u1 a1 (runWorker plat env retries nFallbacks none).log =
        (if (u1, a1, false) ∈ attsOf (runWorker plat env retries nFallbacks none).log ∧
            u1 = 0 ∧ a1 < retries then 10 * 2 ^ a1 else 0)) ∧
    (sliceCount 0 1 (runWorker .linux envAllFail 2 0 (some 10)).log = 5 ∧
      attsOf (runWorker .linux envAllFail 2 0 (some 10)).log = [(0, 1, false)] ∧
      finishedEvents (runWorker .linux envAllFail 2 0 (some 10)).log = []) := by
  constructor
  · intro plat env retries nFallbacks u1 a1
    rw [(runWorker_none plat env retries nFallbacks).2.2.1]
    exact (runWorker_none plat env retries nFallbacks).2.2.2.1 u1 a1
  · exact ⟨by decide, by decide, by decide⟩

/-- C5: when every URL/attempt combination of an uncancelled job fails, the
worker emits exactly one failure ResultEvent; its error message is the fixed
string used at `run` line 186, and no exception escapes the worker (the model
is a total function into the event log). -/
theorem c5_theorem (plat : Plat) (env : Nat → Nat → AttemptEnv) (retries nFallbacks : Nat)
    (h : ∀ u1 a1, attSucc (env u1 a1) = false) :
    finishedEvents (runWorker plat env retries nFallbacks none).log =
      [(false, ErrMsg.allUrlsFailed)] := by
  have h1 := (runWorker_none plat env retries nFallbacks).2.2.2.2.1
  have hsuc : specSucceeded (fun u1 a1 => attSucc (env u1 a1)) retries nFallbacks = false := by
    rw [specSucceeded]
    rw [(specTry_allfail _ 0 (fun a1 => h 0 a1) retries 1)]
    rw [specFbs_allfail _ (fun j => h j 1) nFallbacks 1]
    rfl
  rw [h1, hsuc]
  rfl

/-- C5 witness: a one-URL job whose single attempt raises a transport error
reports exactly one failure event with the fixed message. -/
theorem c5_witness :
    (∀ u1 a1, attSucc (envAllFail u1 a1) = false) ∧
    finishedEvents (runWorker .linux envAllFail 1 0 none).log =
      [(false, ErrMsg.allUrlsFailed)] :=
  ⟨fun _ _ => rfl, c5_theorem .linux envAllFail 1 0 (fun _ _ => rfl)⟩

/-- C5 counterexample: the claim says the failure ResultEvent "carries the
last error encountered".  Here the only (hence last) error is the transport
error `transport 7`, yet the emitted event carries the fixed message
"All download URLs failed" (line 186) — the per-attempt error string
`error_msg = str(e)` computed at line 298 is never used. -/
theorem c5_counterexample :
    finishedEvents (runWorker .linux envAllFail 1 0 none).log =
      [(false, ErrMsg.allUrlsFailed)] ∧
    decide (finishedEvents (runWorker .linux envAllFail 1 0 none).log =
      [(false, ErrMsg.transport 7)]) = false := by
  decide

/-! ## Worker-model lemmas: arbitrary cancellation threshold -/

lemma transferLoop_dest (t : Option Nat) : ∀ (b w : Nat) (s : St),
    (transferLoop t b w s).2.dest = s.dest := by
  intro b
  induction b with
  | zero => intro w s; rfl
  | succ b ih =>
    intro w s
    rw [transferLoop]
    dsimp only
    split
    · rfl
    · rw [ih]
      rfl

lemma transferLoop_leaked (t : Option Nat) : ∀ (b w : Nat) (s : St),
    (transferLoop t b w s).2.leaked = s.leaked := by
  intro b
  induction b with
  | zero => intro w s; rfl
  | succ b ih =>
    intro w s
    rw [transferLoop]
    dsimp only
    split
    · rfl
    · rw [ih]
      rfl

lemma transferLoop_atts (t : Option Nat) : ∀ (b w : Nat) (s : St),
    attsOf (transferLoop t b w s).2.log = attsOf s.log := by
  intro b
  induction b with
  | zero => intro w s; rfl
  | succ b ih =>
    intro w s
    rw [transferLoop]
    dsimp only
    split
    · rfl
    · rw [ih]
      simp [readCancel, emitL, pushObs, attsOf]

lemma transferLoop_slices (t : Option Nat) : ∀ (b w : Nat) (s : St) (u1 a1 : Nat),
    sliceCount u1 a1 (transferLoop t b w s).2.log = sliceCount u1 a1 s.log := by
  intro b
  induction b with
  | zero => intro w s u1 a1; rfl
  | succ b ih =>
    intro w s u1 a1
    rw [transferLoop]
    dsimp only
    split
    · rfl
    · rw [ih]
      simp [readCancel, emitL, pushObs, sliceCount]

lemma transferLoop_finished (t : Option Nat) : ∀ (b w : Nat) (s : St),
    finishedEvents (transferLoop t b w s).2.log = finishedEvents s.log := by
  intro b
  induction b with
  | zero => intro w s; rfl
  | succ b ih =>
    intro w s
    rw [transferLoop]
    dsimp only
    split
    · rfl
    · rw [ih]
      simp [readCancel, emitL, pushObs, finishedEvents]

lemma transferLoop_trace (t : Option Nat) : ∀ (b w : Nat) (s : St),
    (∀ o ∈ s.trace, destOkB o.1 = true) → destOkB s.dest = true →
    ∀ o ∈ (transferLoop t b w s).2.trace, destOkB o.1 = true := by
  intro b
  induction b with
  | zero => intro w s htr _hd; exact htr
  | succ b ih =>
    intro w s htr hd
    rw [transferLoop]
    dsimp only
    split
    · exact htr
    · refine ih (w + 1) _ ?_ (by simpa [emitL, pushObs] using hd)
      intro o ho
      simp only [emitL, pushObs, List.mem_append, List.mem_singleton] at ho
      rcases ho with ho | ho
      · exact htr o ho
      · subst ho
        exact hd

lemma transferLoop_result (t : Option Nat) : ∀ (b w : Nat) (s : St),
    ((transferLoop t b w s).1 = false →
      (transferLoop t b w s).2.cnt = s.cnt + b ∧
      (transferLoop t b w s).2.temp = (if b = 0 then s.temp else some (w + b)) ∧
      ∀ i < b, readTrue t (s.cnt + i) = false) ∧
    ((∀ i < b, readTrue t (s.cnt + i) = false) → (transferLoop t b w s).1 = false) := by
  intro b
  induction b with
  | zero =>
    intro w s
    exact ⟨fun _ => ⟨rfl, by simp [transferLoop], by omega⟩, fun _ => rfl⟩
  | succ b ih =>
    intro w s
    rw [transferLoop]
    dsimp only
    constructor
    · intro hf
      by_cases hr : (readCancel t s).1 = true
      · rw [if_pos hr] at hf
        exact absurd hf (by simp)
      · rw [if_neg hr] at hf ⊢
        simp only [readCancel, emitL, pushObs] at hf ⊢
        obtain ⟨c1, c2, c3⟩ := (ih (w + 1)
          { cnt := s.cnt + 1, dest := s.dest, temp := some (w + 1), leaked := s.leaked,
            log := s.log ++ [LogE.progressE (Msg.downloading (w + 1))],
            trace := s.trace ++ [(s.dest, some (w + 1))] }).1 hf
        dsimp only at c1 c2 c3
        refine ⟨by rw [c1]; omega, ?_, ?_⟩
        · rcases Nat.eq_zero_or_pos b with hb | hb
          · subst hb
            rw [if_pos rfl] at c2
            rw [if_neg (by omega : ¬(0 + 1 = 0)), c2]
          · rw [if_neg (by omega : ¬(b = 0))] at c2
            rw [if_neg (by omega : ¬(b + 1 = 0)), c2]
            exact congrArg some (by omega)
        · intro i hi
          rcases Nat.eq_zero_or_pos i with hz | hz
          · subst hz
            have hr2 : readTrue t s.cnt = false := by
              simpa [readCancel] using hr
            simpa using hr2
          · have hc := c3 (i - 1) (by omega)
            have heq : s.cnt + 1 + (i - 1) = s.cnt + i := by omega
            rw [heq] at hc
            exact hc
    · intro hall
      have h0 : readTrue t s.cnt = false := by simpa using hall 0 (by omega)
      rw [if_neg (by simp [readCancel, h0])]
      refine (ih (w + 1) _).2 ?_
      intro i hi
      simp only [readCancel, emitL, pushObs]
      have hc := hall (i + 1) (by omega)
      have heq : s.cnt + (i + 1) = s.cnt + 1 + i := by omega
      rw [heq] at hc
      exact hc

lemma cancelRemove_facts (t : Option Nat) (s : St) :
    (cancelRemove t s).1 = .cancelled ∧
    (cancelRemove t s).2.temp = none ∧
    (cancelRemove t s).2.leaked = s.leaked ∧
    (cancelRemove t s).2.dest = s.dest ∧
    (cancelRemove t s).2.log = s.log ∧
    (cancelRemove t s).2.trace = s.trace ++ [(s.dest, none)] := by
  simp [cancelRemove, readCancel, pushObs]

lemma failPath_facts (t : Option Nat) (m : ErrMsg) (s : St) :
    ((failPath t m s).1 = .cancelled ∨ (failPath t m s).1 = .failedErr m) ∧
    (failPath t m s).2.temp = none ∧
    (failPath t m s).2.leaked = s.leaked ∧
    (failPath t m s).2.dest = s.dest ∧
    (failPath t m s).2.log = s.log ∧
    (failPath t m s).2.trace = s.trace ++ [(s.dest, none)] := by
  simp only [failPath, readCancel, pushObs]
  repeat' split <;> (try simp)

lemma mkdirFailPath_facts (t : Option Nat) (s : St) :
    ((mkdirFailPath t s).1 = .cancelled ∨ (mkdirFailPath t s).1 = .failedErr .mkdirErr) ∧
    (mkdirFailPath t s).2.temp = s.temp ∧
    (mkdirFailPath t s).2.leaked = s.leaked ∧
    (mkdirFailPath t s).2.dest = s.dest ∧
    (mkdirFailPath t s).2.log = s.log ++ [.progressE .dirError] ∧
    (mkdirFailPath t s).2.trace = s.trace := by
  simp only [mkdirFailPath, readCancel, emitL]
  repeat' split <;> simp

lemma finishPath_facts (plat : Plat) (t : Option Nat) (e : AttemptEnv) (b : Nat) (s : St) :
    (∃ em, (finishPath plat t e b s).1 = .success em) ∧
    (finishPath plat t e b s).2.temp = none ∧
    (finishPath plat t e b s).2.leaked = s.leaked ∧
    (finishPath plat t e b s).2.dest = .complete b ∧
    (finishPath plat t e b s).2.trace = s.trace ++ [(.complete b, none)] ∧
    attsOf (finishPath plat t e b s).2.log = attsOf s.log ∧
    (∀ u1 a1, sliceCount u1 a1 (finishPath plat t e b s).2.log = sliceCount u1 a1 s.log) ∧
    finishedEvents (finishPath plat t e b s).2.log =
      finishedEvents s.log ++
        (if (finishPath plat t e b s).1 = AttResult.success true then
          [(true, ErrMsg.noError)] else []) ∧
    ((finishPath plat t e b s).1 = .success true ↔ readTrue t s.cnt = false) := by
  simp only [finishPath, readCancel, emitL, pushObs]
  repeat' split <;> simp_all [attsOf, sliceCount, finishedEvents]

lemma errBody_facts (t : Option Nat) (b : Nat) (m : ErrMsg) (s2 : St) :
    ((errBody t b m s2).1 = .cancelled ∨ (errBody t b m s2).1 = .failedErr m) ∧
    (errBody t b m s2).2.temp = none ∧
    (errBody t b m s2).2.leaked = s2.leaked ∧
    (errBody t b m s2).2.dest = s2.dest ∧
    attsOf (errBody t b m s2).2.log = attsOf s2.log ∧
    (∀ u1 a1, sliceCount u1 a1 (errBody t b m s2).2.log = sliceCount u1 a1 s2.log) ∧
    finishedEvents (errBody t b m s2).2.log = finishedEvents s2.log ∧
    ((∀ o ∈ s2.trace, destOkB o.1 = true) → destOkB s2.dest = true →
      ∀ o ∈ (errBody t b m s2).2.trace, destOkB o.1 = true) := by
  simp only [errBody]
  split
  · obtain ⟨c1, c2, c3, c4, c5, c6⟩ := cancelRemove_facts t (transferLoop t b 0 s2).2
    rw [c1]
    refine ⟨Or.inl rfl, c2, ?_, ?_, ?_, ?_, ?_, ?_⟩
    · rw [c3, transferLoop_leaked]
    · rw [c4, transferLoop_dest]
    · rw [c5, transferLoop_atts]
    · intro u1 a1
      rw [c5, transferLoop_slices]
    · rw [c5, transferLoop_finished]
    · intro htr hd
      intro o ho
      rw [c6] at ho
      rcases List.mem_append.mp ho with ho | ho
      · exact transferLoop_trace t b 0 s2 htr hd o ho
      · simp only [List.mem_singleton] at ho
        subst ho
        rw [transferLoop_dest]
        exact hd
  · obtain ⟨c1, c2, c3, c4, c5, c6⟩ := failPath_facts t m (transferLoop t b 0 s2).2
    refine ⟨c1, c2, ?_, ?_, ?_, ?_, ?_, ?_⟩
    · rw [c3, transferLoop_leaked]
    · rw [c4, transferLoop_dest]
    · rw [c5, transferLoop_atts]
    · intro u1 a1
      rw [c5, transferLoop_slices]
    · rw [c5, transferLoop_finished]
    · intro htr hd
      intro o ho
      rw [c6] at ho
      rcases List.mem_append.mp ho with ho | ho
      · exact transferLoop_trace t b 0 s2 htr hd o ho
      · simp only [List.mem_singleton] at ho
        subst ho
        rw [transferLoop_dest]
        exact hd

lemma okBody_facts (plat : Plat) (t : Option Nat) (e : AttemptEnv) (b : Nat) (s2 : St) :
    (okBody plat t e b s2).2.temp = none ∧
    (okBody plat t e b s2).2.leaked = s2.leaked ∧
    attsOf (okBody plat t e b s2).2.log = attsOf s2.log ∧
    (∀ u1 a1, sliceCount u1 a1 (okBody plat t e b s2).2.log = sliceCount u1 a1 s2.log) ∧
    finishedEvents (okBody plat t e b s2).2.log =
      finishedEvents s2.log ++
        (if (okBody plat t e b s2).1 = AttResult.success true then
          [(true, ErrMsg.noError)] else []) ∧
    (∀ em, (okBody plat t e b s2).1 = .success em →
      (okBody plat t e b s2).2.dest = .complete b ∧ 0 < b) ∧
    ((okBody plat t e b s2).1 = .cancelled → (okBody plat t e b s2).2.dest = s2.dest) ∧
    (∀ m, (okBody plat t e b s2).1 = .failedErr m → (okBody plat t e b s2).2.dest = s2.dest) ∧
    ((∀ o ∈ s2.trace, destOkB o.1 = true) → destOkB s2.dest = true →
      (∀ o ∈ (okBody plat t e b s2).2.trace, destOkB o.1 = true)) ∧
    isSuccessR (okBody plat t e b s2).1 =
      (e.mkdir2Ok && e.moveOk && decide (0 < b) && !readTrue t (s2.cnt + b)) := by
  simp only [okBody, readCancel]
  by_cases hT : (transferLoop t b 0 s2).1 = true
  · rw [if_pos hT]
    have hrd : readTrue t (s2.cnt + b) = true := by
      have hex : ¬(∀ i < b, readTrue t (s2.cnt + i) = false) := by
        intro hall
        rw [(transferLoop_result t b 0 s2).2 hall] at hT
        exact absurd hT (by simp)
      push_neg at hex
      obtain ⟨i, hi, hne⟩ := hex
      have hi2 : readTrue t (s2.cnt + i) = true := by
        cases hv : readTrue t (s2.cnt + i)
        · exact absurd hv hne
        · rfl
      exact readTrue_mono t (s2.cnt + i) (s2.cnt + b) (by omega) hi2
    obtain ⟨c1, c2, c3, c4, c5, c6⟩ := cancelRemove_facts t (transferLoop t b 0 s2).2
    rw [c1]
    refine ⟨c2, ?_, ?_, ?_, ?_, ?_, ?_, ?_, ?_, ?_⟩
    · rw [c3, transferLoop_leaked]
    · rw [c5, transferLoop_atts]
    · intro u1 a1
      rw [c5, transferLoop_slices]
    · rw [c5, transferLoop_finished]
      simp
    · intro em hem
      exact absurd hem (by simp)
    · intro _
      rw [c4, transferLoop_dest]
    · intro m hm
      exact absurd hm (by simp)
    · intro htr hd o ho
      rw [c6] at ho
      rcases List.mem_append.mp ho with ho | ho
      · exact transferLoop_trace t b 0 s2 htr hd o ho
      · simp only [List.mem_singleton] at ho
        subst ho
        rw [transferLoop_dest]
        exact hd
    · rw [hrd]
      simp [isSuccessR]
  · rw [if_neg hT]
    have hTf : (transferLoop t b 0 s2).1 = false := by
      cases hv : (transferLoop t b 0 s2).1
      · rfl
      · exact absurd hv hT
    obtain ⟨c1, _c2, _c3⟩ := (transferLoop_result t b 0 s2).1 hTf
    by_cases h3 : readTrue t (s2.cnt + b) = true
    · have hcond : readTrue t (transferLoop t b 0 s2).2.cnt = true := by rw [c1]; exact h3
      rw [if_pos hcond]
      refine ⟨rfl, ?_, ?_, ?_, ?_, ?_, ?_, ?_, ?_, ?_⟩
      · simp [pushObs, transferLoop_leaked]
      · simp [pushObs, transferLoop_atts]
      · intro u1 a1
        simp [pushObs, transferLoop_slices]
      · simp [pushObs, transferLoop_finished]
      · intro em hem
        exact absurd hem (by simp)
      · intro _
        simp [pushObs, transferLoop_dest]
      · intro m hm
        exact absurd hm (by simp)
      · intro htr hd o ho
        simp only [pushObs, List.mem_append, List.mem_singleton] at ho
        rcases ho with ho | ho
        · exact transferLoop_trace t b 0 s2 htr hd o ho
        · subst ho
          dsimp only
          rw [transferLoop_dest]
          exact hd
      · rw [h3]
        simp [isSuccessR]
    · have hcond : ¬(readTrue t (transferLoop t b 0 s2).2.cnt = true) := by rw [c1]; exact h3
      rw [if_neg hcond]
      have h3f : readTrue t (s2.cnt + b) = false := by
        cases hv : readTrue t (s2.cnt + b)
        · rfl
        · exact absurd hv h3
      have hfails : ∀ (m0 : ErrMsg),
          ((failPath t m0 { (transferLoop t b 0 s2).2 with
              cnt := (transferLoop t b 0 s2).2.cnt + 1 }).2.temp = none ∧
          (failPath t m0 { (transferLoop t b 0 s2).2 with
              cnt := (transferLoop t b 0 s2).2.cnt + 1 }).2.leaked = s2.leaked ∧
          attsOf (failPath t m0 { (transferLoop t b 0 s2).2 with
              cnt := (transferLoop t b 0 s2).2.cnt + 1 }).2.log = attsOf s2.log ∧
          (∀ u1 a1, sliceCount u1 a1 (failPath t m0 { (transferLoop t b 0 s2).2 with
              cnt := (transferLoop t b 0 s2).2.cnt + 1 }).2.log = sliceCount u1 a1 s2.log) ∧
          finishedEvents (failPath t m0 { (transferLoop t b 0 s2).2 with
              cnt := (transferLoop t b 0 s2).2.cnt + 1 }).2.log = finishedEvents s2.log ∧
          (failPath t m0 { (transferLoop t b 0 s2).2 with
              cnt := (transferLoop t b 0 s2).2.cnt + 1 }).2.dest = s2.dest ∧
          ((∀ o ∈ s2.trace, destOkB o.1 = true) → destOkB s2.dest = true →
            ∀ o ∈ (failPath t m0 { (transferLoop t b 0 s2).2 with
              cnt := (transferLoop t b 0 s2).2.cnt + 1 }).2.trace, destOkB o.1 = true) ∧
          isSuccessR (failPath t m0 { (transferLoop t b 0 s2).2 with
              cnt := (transferLoop t b 0 s2).2.cnt + 1 }).1 = false) := by
        intro m0
        obtain ⟨d1, d2, d3, d4, d5, d6⟩ := failPath_facts t m0
          { (transferLoop t b 0 s2).2 with cnt := (transferLoop t b 0 s2).2.cnt + 1 }
        refine ⟨d2, ?_, ?_, ?_, ?_, ?_, ?_, ?_⟩
        · rw [d3]
          simp [transferLoop_leaked]
        · rw [d5]
          simp [transferLoop_atts]
        · intro u1 a1
          rw [d5]
          simp [transferLoop_slices]
        · rw [d5]
          simp [transferLoop_finished]
        · rw [d4]
          simp [transferLoop_dest]
        · intro htr hd o ho
          rw [d6] at ho
          rcases List.mem_append.mp ho with ho | ho
          · exact transferLoop_trace t b 0 s2 htr hd o (by simpa using ho)
          · simp only [List.mem_singleton] at ho
            subst ho
            dsimp only
            rw [transferLoop_dest]
            exact hd
        · rcases d1 with d1 | d1 <;> rw [d1] <;> simp [isSuccessR]
      have hfres : ∀ (m0 : ErrMsg),
          (failPath t m0 { (transferLoop t b 0 s2).2 with
            cnt := (transferLoop t b 0 s2).2.cnt + 1 }).1 = .cancelled ∨
          (failPath t m0 { (transferLoop t b 0 s2).2 with
            cnt := (transferLoop t b 0 s2).2.cnt + 1 }).1 = .failedErr m0 := by
        intro m0
        exact (failPath_facts t m0 _).1
      by_cases hb : b = 0
      · subst hb
        rw [if_pos rfl]
        obtain ⟨d1, d2, d3, d4, d5, d6, d7, d8⟩ := hfails .emptyFile
        refine ⟨d1, d2, d3, d4, ?_, ?_, ?_, ?_, d7, ?_⟩
        · rcases hfres .emptyFile with hr | hr <;> rw [hr] <;> simpa using d5
        · intro em hem
          rcases hfres .emptyFile with hr | hr <;> rw [hr] at hem <;> exact absurd hem (by simp)
        · intro _
          exact d6
        · intro m hm
          exact d6
        · rw [d8]
          simp
      · rw [if_neg hb]
        by_cases hm2 : e.mkdir2Ok = false
        · rw [if_pos hm2]
          obtain ⟨d1, d2, d3, d4, d5, d6, d7, d8⟩ := hfails .destMkdirErr
          refine ⟨d1, d2, d3, d4, ?_, ?_, ?_, ?_, d7, ?_⟩
          · rcases hfres .destMkdirErr with hr | hr <;> rw [hr] <;> simpa using d5
          · intro em hem
            rcases hfres .destMkdirErr with hr | hr <;> rw [hr] at hem <;>
              exact absurd hem (by simp)
          · intro _
            exact d6
          · intro m hm
            exact d6
          · rw [d8, hm2]
            simp
        · rw [if_neg hm2]
          by_cases hmv : e.moveOk = false
          · rw [if_pos hmv]
            obtain ⟨d1, d2, d3, d4, d5, d6, d7, d8⟩ := hfails .moveErr
            refine ⟨d1, d2, d3, d4, ?_, ?_, ?_, ?_, d7, ?_⟩
            · rcases hfres .moveErr with hr | hr <;> rw [hr] <;> simpa using d5
            · intro em hem
              rcases hfres .moveErr with hr | hr <;> rw [hr] at hem <;>
                exact absurd hem (by simp)
            · intro _
              exact d6
            · intro m hm
              exact d6
            · rw [d8, hmv]
              simp
          · rw [if_neg hmv]
            obtain ⟨⟨em0, d1⟩, d2, d3, d4, d5, d6, d7, d8, d9⟩ := finishPath_facts plat t e b
              { (transferLoop t b 0 s2).2 with cnt := (transferLoop t b 0 s2).2.cnt + 1 }
            have hm2t : e.mkdir2Ok = true := by
              cases hv : e.mkdir2Ok
              · exact absurd hv hm2
              · rfl
            have hmvt : e.moveOk = true := by
              cases hv : e.moveOk
              · exact absurd hv hmv
              · rfl
            refine ⟨d2, ?_, ?_, ?_, ?_, ?_, ?_, ?_, ?_, ?_⟩
            · rw [d3]
              simp [transferLoop_leaked]
            · rw [d6]
              simp [transferLoop_atts]
            · intro u1 a1
              rw [d7 u1 a1]
              simp [transferLoop_slices]
            · rw [d8]
              simp [transferLoop_finished]
            · intro em hem
              refine ⟨d4, by omega⟩
            · intro hc
              rw [d1] at hc
              exact absurd hc (by simp)
            · intro m hm
              rw [d1] at hm
              exact absurd hm (by simp)
            · intro htr hd o ho
              rw [d5] at ho
              rcases List.mem_append.mp ho with ho | ho
              · exact transferLoop_trace t b 0 s2 htr hd o (by simpa using ho)
              · simp only [List.mem_singleton] at ho
                subst ho
                simp only [destOkB]
                simp
                omega
            · rw [d1, hm2t, hmvt, h3f]
              simp [isSuccessR]
              omega

lemma tryAttempt_facts (plat : Plat) (t : Option Nat) (e : AttemptEnv) (u a : Nat) (s : St) :
    (s.temp = none → (tryAttempt plat t e u a s).2.temp = none) ∧
    ((∀ x ∈ s.leaked, x = 0) → ∀ x ∈ (tryAttempt plat t e u a s).2.leaked, x = 0) ∧
    attsOf (tryAttempt plat t e u a s).2.log = attsOf s.log ∧
    (∀ u1 a1, sliceCount u1 a1 (tryAttempt plat t e u a s).2.log = sliceCount u1 a1 s.log) ∧
    finishedEvents (tryAttempt plat t e u a s).2.log =
      finishedEvents s.log ++
        (if (tryAttempt plat t e u a s).1 = AttResult.success true then
          [(true, ErrMsg.noError)] else []) ∧
    (∀ em, (tryAttempt plat t e u a s).1 = .success em →
      (tryAttempt plat t e u a s).2.dest = .complete (sizeOfT e.transfer) ∧
      0 < sizeOfT e.transfer) ∧
    ((tryAttempt plat t e u a s).1 = .cancelled → (tryAttempt plat t e u a s).2.dest = s.dest) ∧
    (∀ m, (tryAttempt plat t e u a s).1 = .failedErr m →
      (tryAttempt plat t e u a s).2.dest = s.dest) ∧
    ((∀ o ∈ s.trace, destOkB o.1 = true) → destOkB s.dest = true →
      ((∀ o ∈ (tryAttempt plat t e u a s).2.trace, destOkB o.1 = true) ∧
        destOkB (tryAttempt plat t e u a s).2.dest = true)) ∧
    isSuccessR (tryAttempt plat t e u a s).1 =
      (attSucc e && !readTrue t (s.cnt + 2 + sizeOfT e.transfer)) := by
  simp only [tryAttempt, readCancel]
  by_cases h0 : readTrue t s.cnt = true
  · rw [if_pos h0]
    have hmono : readTrue t (s.cnt + 2 + sizeOfT e.transfer) = true :=
      readTrue_mono t s.cnt _ (by omega) h0
    refine ⟨fun h => h, fun h => h, rfl, fun _ _ => rfl, by simp, ?_, fun _ => rfl, ?_,
      fun htr hd => ⟨htr, hd⟩, ?_⟩
    · intro em hem
      exact absurd hem (by simp)
    · intro m hm
      exact absurd hm (by simp)
    · rw [hmono]
      simp [isSuccessR]
  · rw [if_neg h0]
    by_cases hmk : e.mkdirOk = false
    · rw [if_pos hmk]
      obtain ⟨m1, m2, m3, m4, m5, m6⟩ := mkdirFailPath_facts t { s with cnt := s.cnt + 1 }
      refine ⟨?_, ?_, ?_, ?_, ?_, ?_, ?_, ?_, ?_, ?_⟩
      · intro h
        rw [m2]
        exact h
      · intro h
        rw [m3]
        exact h
      · rw [m5]
        simp [attsOf]
      · intro u1 a1
        rw [m5]
        simp [sliceCount]
      · rw [m5]
        rcases m1 with m1 | m1 <;> rw [m1] <;> simp [finishedEvents]
      · intro em hem
        rcases m1 with m1 | m1 <;> rw [m1] at hem <;> exact absurd hem (by simp)
      · intro _
        rw [m4]
      · intro m hm
        rw [m4]
      · intro htr hd
        rw [m6, m4]
        exact ⟨htr, hd⟩
      · rcases m1 with m1 | m1 <;> rw [m1] <;> simp [isSuccessR, attSucc, hmk]
    · rw [if_neg hmk]
      dsimp only [pushObs]
      have hmkt : e.mkdirOk = true := by
        cases hv : e.mkdirOk
        · exact absurd hv hmk
        · rfl
      have w1 : (if (decide (plat = Plat.linux) && decide (e.dirChmodOk = false)) = true
          then emitL .warned { s with cnt := s.cnt + 1 }
          else { s with cnt := s.cnt + 1 }).cnt = s.cnt + 1 := by
        split <;> simp [emitL]
      have w3 : (if (decide (plat = Plat.linux) && decide (e.dirChmodOk = false)) = true
          then emitL .warned { s with cnt := s.cnt + 1 }
          else { s with cnt := s.cnt + 1 }).dest = s.dest := by
        split <;> simp [emitL]
      have w4 : (if (decide (plat = Plat.linux) && decide (e.dirChmodOk = false)) = true
          then emitL .warned { s with cnt := s.cnt + 1 }
          else { s with cnt := s.cnt + 1 }).leaked = s.leaked := by
        split <;> simp [emitL]
      have w5 : attsOf (if (decide (plat = Plat.linux) && decide (e.dirChmodOk = false)) = true
          then emitL .warned { s with cnt := s.cnt + 1 }
          else { s with cnt := s.cnt + 1 }).log = attsOf s.log := by
        split <;> simp [emitL, attsOf]
      have w6 : ∀ u1 a1, sliceCount u1 a1
          (if (decide (plat = Plat.linux) && decide (e.dirChmodOk = false)) = true
          then emitL .warned { s with cnt := s.cnt + 1 }
          else { s with cnt := s.cnt + 1 }).log = sliceCount u1 a1 s.log := by
        intro u1 a1
        split <;> simp [emitL, sliceCount]
      have w7 : finishedEvents
          (if (decide (plat = Plat.linux) && decide (e.dirChmodOk = false)) = true
          then emitL .warned { s with cnt := s.cnt + 1 }
          else { s with cnt := s.cnt + 1 }).log = finishedEvents s.log := by
        split <;> simp [emitL, finishedEvents]
      have w8 : (if (decide (plat = Plat.linux) && decide (e.dirChmodOk = false)) = true
          then emitL .warned { s with cnt := s.cnt + 1 }
          else { s with cnt := s.cnt + 1 }).trace = s.trace := by
        split <;> simp [emitL]
      by_cases h1 : readTrue t (s.cnt + 1) = true
      · rw [if_pos (by rw [w1]; exact h1 :
          readTrue t (if (decide (plat = Plat.linux) && decide (e.dirChmodOk = false)) = true
            then emitL .warned { s with cnt := s.cnt + 1 }
            else { s with cnt := s.cnt + 1 }).cnt = true)]
        have hmono : readTrue t (s.cnt + 2 + sizeOfT e.transfer) = true :=
          readTrue_mono t (s.cnt + 1) _ (by omega) h1
        refine ⟨?_, ?_, ?_, ?_, ?_, ?_, ?_, ?_, ?_, ?_⟩
        · intro _
          rfl
        · intro h
          dsimp only
          rw [w4]
          intro x hx
          rcases List.mem_append.mp hx with hx | hx
          · exact h x hx
          · simpa using hx
        · dsimp only
          rw [w5]
        · intro u1 a1
          dsimp only
          rw [w6]
        · dsimp only
          rw [w7]
          simp
        · intro em hem
          exact absurd hem (by simp)
        · intro _
          dsimp only
          rw [w3]
        · intro m hm
          exact absurd hm (by simp)
        · intro htr hd
          dsimp only
          rw [w8, w3]
          refine ⟨?_, hd⟩
          intro o ho
          rcases List.mem_append.mp ho with ho | ho
          · exact htr o ho
          · simp only [List.mem_singleton] at ho
            subst ho
            exact hd
        · rw [hmono]
          simp [isSuccessR]
      · rw [if_neg (by rw [w1]; exact h1 :
          ¬(readTrue t (if (decide (plat = Plat.linux) && decide (e.dirChmodOk = false)) = true
            then emitL .warned { s with cnt := s.cnt + 1 }
            else { s with cnt := s.cnt + 1 }).cnt = true))]
        cases htrm : e.transfer with
        | err b m =>
          obtain ⟨g1, g2, g3, g4, g5, g6, g7, g8⟩ := errBody_facts t b m
            { cnt := (if (decide (plat = Plat.linux) && decide (e.dirChmodOk = false)) = true
                then emitL .warned { s with cnt := s.cnt + 1 }
                else { s with cnt := s.cnt + 1 }).cnt + 1,
              dest := (if (decide (plat = Plat.linux) && decide (e.dirChmodOk = false)) = true
                then emitL .warned { s with cnt := s.cnt + 1 }
                else { s with cnt := s.cnt + 1 }).dest,
              temp := some 0,
              leaked := (if (decide (plat = Plat.linux) && decide (e.dirChmodOk = false)) = true
                then emitL .warned { s with cnt := s.cnt + 1 }
                else { s with cnt := s.cnt + 1 }).leaked,
              log := (if (decide (plat = Plat.linux) && decide (e.dirChmodOk = false)) = true
                then emitL .warned { s with cnt := s.cnt + 1 }
                else { s with cnt := s.cnt + 1 }).log,
              trace := (if (decide (plat = Plat.linux) && decide (e.dirChmodOk = false)) = true
                then emitL .warned { s with cnt := s.cnt + 1 }
                else { s with cnt := s.cnt + 1 }).trace ++
                  [((if (decide (plat = Plat.linux) && decide (e.dirChmodOk = false)) = true
                    then emitL .warned { s with cnt := s.cnt + 1 }
                    else { s with cnt := s.cnt + 1 }).dest, some 0)] }
          refine ⟨fun _ => g2, ?_, ?_, ?_, ?_, ?_, ?_, ?_, ?_, ?_⟩
          · intro h
            rw [g3]
            dsimp only
            rw [w4]
            exact h
          · rw [g5]
            dsimp only
            rw [w5]
          · intro u1 a1
            rw [g6 u1 a1]
            dsimp only
            rw [w6]
          · rw [g7]
            rcases g1 with g1 | g1 <;> rw [g1]
            · dsimp only
              rw [w7]
              simp
            · dsimp only
              rw [w7]
              simp
          · intro em hem
            rcases g1 with g1 | g1 <;> rw [g1] at hem <;> exact absurd hem (by simp)
          · intro _
            rw [g4]
            dsimp only
            rw [w3]
          · intro m0 hm0
            rw [g4]
            dsimp only
            rw [w3]
          · intro htr hd
            have htrace : ∀ o ∈ ((if (decide (plat = Plat.linux) &&
                  decide (e.dirChmodOk = false)) = true
                then emitL .warned { s with cnt := s.cnt + 1 }
                else { s with cnt := s.cnt + 1 }).trace ++
                  [((if (decide (plat = Plat.linux) && decide (e.dirChmodOk = false)) = true
                    then emitL .warned { s with cnt := s.cnt + 1 }
                    else { s with cnt := s.cnt + 1 }).dest, some 0)]), destOkB o.1 = true := by
              rw [w8, w3]
              intro o ho
              rcases List.mem_append.mp ho with ho | ho
              · exact htr o ho
              · simp only [List.mem_singleton] at ho
                subst ho
                exact hd
            constructor
            · exact g8 (by simpa using htrace) (by dsimp only; rw [w3]; exact hd)
            · rw [g4]
              dsimp only
              rw [w3]
              exact hd
          · rcases g1 with g1 | g1 <;> rw [g1] <;> simp [isSuccessR, attSucc, htrm]
        | ok b =>
          obtain ⟨g1, g2, g3, g4, g5, g6, g7, g8, g9, g10⟩ := okBody_facts plat t e b
            { cnt := (if (decide (plat = Plat.linux) && decide (e.dirChmodOk = false)) = true
                then emitL .warned { s with cnt := s.cnt + 1 }
                else { s with cnt := s.cnt + 1 }).cnt + 1,
              dest := (if (decide (plat = Plat.linux) && decide (e.dirChmodOk = false)) = true
                then emitL .warned { s with cnt := s.cnt + 1 }
                else { s with cnt := s.cnt + 1 }).dest,
              temp := some 0,
              leaked := (if (decide (plat = Plat.linux) && decide (e.dirChmodOk = false)) = true
                then emitL .warned { s with cnt := s.cnt + 1 }
                else { s with cnt := s.cnt + 1 }).leaked,
              log := (if (decide (plat = Plat.linux) && decide (e.dirChmodOk = false)) = true
                then emitL .warned { s with cnt := s.cnt + 1 }
                else { s with cnt := s.cnt + 1 }).log,
              trace := (if (decide (plat = Plat.linux) && decide (e.dirChmodOk = false)) = true
                then emitL .warned { s with cnt := s.cnt + 1 }
                else { s with cnt := s.cnt + 1 }).trace ++
                  [((if (decide (plat = Plat.linux) && decide (e.dirChmodOk = false)) = true
                    then emitL .warned { s with cnt := s.cnt + 1 }
                    else { s with cnt := s.cnt + 1 }).dest, some 0)] }
          refine ⟨fun _ => g1, ?_, ?_, ?_, ?_, ?_, ?_, ?_, ?_, ?_⟩
          · intro h
            rw [g2]
            dsimp only
            rw [w4]
            exact h
          · rw [g3]
            dsimp only
            rw [w5]
          · intro u1 a1
            rw [g4 u1 a1]
            dsimp only
            rw [w6]
          · rw [g5]
            dsimp only
            rw [w7]
          · intro em hem
            obtain ⟨hd1, hd2⟩ := g6 em hem
            exact ⟨by rw [hd1]; simp [sizeOfT], by simpa [sizeOfT] using hd2⟩
          · intro hc
            rw [g7 hc]
            dsimp only
            rw [w3]
          · intro m0 hm0
            rw [g8 m0 hm0]
            dsimp only
            rw [w3]
          · intro htr hd
            have htrace : ∀ o ∈ ((if (decide (plat = Plat.linux) &&
                  decide (e.dirChmodOk = false)) = true
                then emitL .warned { s with cnt := s.cnt + 1 }
                else { s with cnt := s.cnt + 1 }).trace ++
                  [((if (decide (plat = Plat.linux) && decide (e.dirChmodOk = false)) = true
                    then emitL .warned { s with cnt := s.cnt + 1 }
                    else { s with cnt := s.cnt + 1 }).dest, some 0)]), destOkB o.1 = true := by
              rw [w8, w3]
              intro o ho
              rcases List.mem_append.mp ho with ho | ho
              · exact htr o ho
              · simp only [List.mem_singleton] at ho
                subst ho
                exact hd
            constructor
            · exact g9 (by simpa using htrace) (by dsimp only; rw [w3]; exact hd)
            · rcases hres : (okBody plat t e b _).1 with em | _ | m0
              · obtain ⟨hd1, _⟩ := g6 em hres
                rw [hd1]
                obtain ⟨_, hp⟩ := g6 em hres
                simp [destOkB]
                omega
              · rw [g7 hres]
                dsimp only
                rw [w3]
                exact hd
              · rw [g8 m0 hres]
                dsimp only
                rw [w3]
                exact hd
          · rw [g10]
            dsimp only
            rw [w1]
            have harg : s.cnt + 1 + 1 + b = s.cnt + 2 + sizeOfT (Transfer.ok b) := by
              simp only [sizeOfT]
            rw [harg]
            cases hx : e.mkdir2Ok <;> cases hy : e.moveOk <;>
              simp [attSucc, htrm, hmkt, hx, hy, sizeOfT]

/-- Regime-B facts about the backoff loop for an arbitrary cancellation
threshold: it only reads the flag and sleeps, so every field except the clock
and the slice markers in the log is unchanged. -/
lemma backoff_facts (t : Option Nat) (u a : Nat) : ∀ (n : Nat) (s : St),
    (backoff t u a n s).2.temp = s.temp ∧
    (backoff t u a n s).2.leaked = s.leaked ∧
    (backoff t u a n s).2.dest = s.dest ∧
    (backoff t u a n s).2.trace = s.trace ∧
    finishedEvents (backoff t u a n s).2.log = finishedEvents s.log := by
  intro n
  induction n with
  | zero => intro s; exact ⟨rfl, rfl, rfl, rfl, rfl⟩
  | succ n ih =>
    intro s
    rw [backoff]
    simp only [readCancel]
    by_cases hr : readTrue t s.cnt = true
    · rw [if_pos hr]
      exact ⟨rfl, rfl, rfl, rfl, rfl⟩
    · rw [if_neg hr]
      refine ⟨(ih _).1, (ih _).2.1, (ih _).2.2.1, (ih _).2.2.2.1, ?_⟩
      rw [(ih _).2.2.2.2]
      simp [emitL, finishedEvents]

/-- Regime-B facts about the attempt loop for an arbitrary cancellation
threshold: temp-file absence and emptiness of leaked temp files are preserved;
a run that returns `false` emits no finished signal and leaves the destination
unchanged; a run that returns `true` emits at most one success signal and
leaves a complete non-empty destination; the destination-atomicity trace
invariant is preserved. -/
lemma tryFrom_facts (plat : Plat) (t : Option Nat) (env : Nat → Nat → AttemptEnv)
    (u maxAtt : Nat) : ∀ (fuel a : Nat) (s : St),
    (s.temp = none → (tryFrom plat t env u maxAtt a fuel s).2.temp = none) ∧
    ((∀ x ∈ s.leaked, x = 0) → ∀ x ∈ (tryFrom plat t env u maxAtt a fuel s).2.leaked, x = 0) ∧
    ((tryFrom plat t env u maxAtt a fuel s).1 = false →
      finishedEvents (tryFrom plat t env u maxAtt a fuel s).2.log = finishedEvents s.log ∧
      (tryFrom plat t env u maxAtt a fuel s).2.dest = s.dest) ∧
    ((tryFrom plat t env u maxAtt a fuel s).1 = true →
      (finishedEvents (tryFrom plat t env u maxAtt a fuel s).2.log = finishedEvents s.log ∨
        finishedEvents (tryFrom plat t env u maxAtt a fuel s).2.log =
          finishedEvents s.log ++ [(true, ErrMsg.noError)]) ∧
      isCompletePos (tryFrom plat t env u maxAtt a fuel s).2.dest = true) ∧
    ((∀ o ∈ s.trace, destOkB o.1 = true) → destOkB s.dest = true →
      (∀ o ∈ (tryFrom plat t env u maxAtt a fuel s).2.trace, destOkB o.1 = true) ∧
      destOkB (tryFrom plat t env u maxAtt a fuel s).2.dest = true) := by
  intro fuel
  induction fuel with
  | zero =>
    intro a s
    refine ⟨fun h => h, fun h => h, fun _ => ⟨rfl, rfl⟩, ?_, fun h1 h2 => ⟨h1, h2⟩⟩
    intro h
    exact absurd h (by simp [tryFrom])
  | succ fuel ih =>
    intro a s
    rcases hTA : tryAttempt plat t (env u a) u a s with ⟨res, s1⟩
    obtain ⟨f1, f2, f3, f4, f5, f6, f7, f8, f9, f10⟩ := tryAttempt_facts plat t (env u a) u a s
    rw [hTA] at f1 f2 f3 f4 f5 f6 f7 f8 f9 f10
    dsimp only at f1 f2 f3 f4 f5 f6 f7 f8 f9 f10
    rw [tryFrom, hTA]
    cases res with
    | success em =>
      dsimp only
      obtain ⟨hd, hpos⟩ := f6 em rfl
      refine ⟨?_, ?_, ?_, ?_, ?_⟩
      · intro h
        exact f1 h
      · intro h
        exact f2 h
      · intro h
        exact absurd h (by simp)
      · intro _
        constructor
        · rw [show finishedEvents (emitL (LogE.att u a true) s1).log = finishedEvents s1.log
            from by simp [emitL, finishedEvents]]
          rw [f5]
          cases em with
          | false =>
            left
            rw [if_neg (by simp : ¬(AttResult.success false = AttResult.success true))]
            simp
          | true =>
            right
            rw [if_pos rfl]
        · rw [show (emitL (LogE.att u a true) s1).dest = s1.dest from rfl, hd]
          simpa [isCompletePos] using hpos
      · intro htr hds
        obtain ⟨t1, t2⟩ := f9 htr hds
        exact ⟨t1, t2⟩
    | cancelled =>
      dsimp only
      have hds : s1.dest = s.dest := f7 rfl
      have hfe : finishedEvents s1.log = finishedEvents s.log := by
        rw [f5, if_neg (by simp : ¬(AttResult.cancelled = AttResult.success true))]
        simp
      refine ⟨f1, f2, fun _ => ⟨hfe, hds⟩, ?_, f9⟩
      intro h
      exact absurd h (by simp)
    | failedErr m =>
      dsimp only
      have hds : s1.dest = s.dest := f8 m rfl
      have hfe : finishedEvents s1.log = finishedEvents s.log := by
        rw [f5, if_neg (by simp : ¬(AttResult.failedErr m = AttResult.success true))]
        simp
      by_cases hlt : a < maxAtt
      · rw [if_pos hlt]
        rcases hB : backoff t u a (10 * 2 ^ a)
            (emitL (LogE.progressE (Msg.retryNotice a maxAtt)) (emitL (LogE.att u a false) s1))
          with ⟨bf, sB⟩
        obtain ⟨b1, b2, b3, b4, b5⟩ := backoff_facts t u a (10 * 2 ^ a)
          (emitL (LogE.progressE (Msg.retryNotice a maxAtt)) (emitL (LogE.att u a false) s1))
        rw [hB] at b1 b2 b3 b4 b5
        dsimp only [emitL] at b1 b2 b3 b4 b5
        have hfeB : finishedEvents sB.log = finishedEvents s.log := by
          rw [b5]
          simp [finishedEvents, hfe]
        cases bf with
        | true =>
          rw [if_pos rfl]
          refine ⟨?_, ?_, ?_, ?_, ?_⟩
          · intro h
            rw [b1]
            exact f1 h
          · intro h
            rw [b2]
            exact f2 h
          · intro _
            exact ⟨hfeB, by rw [b3, hds]⟩
          · intro h
            exact absurd h (by simp)
          · intro htr hd
            obtain ⟨t1, t2⟩ := f9 htr hd
            constructor
            · rw [b4]
              exact t1
            · rw [b3]
              exact t2
        | false =>
          rw [if_neg (by simp)]
          obtain ⟨g1, g2, g3, g4, g5⟩ := ih (a + 1) sB
          refine ⟨?_, ?_, ?_, ?_, ?_⟩
          · intro h
            exact g1 (by rw [b1]; exact f1 h)
          · intro h
            refine g2 ?_
            rw [b2]
            exact f2 h
          · intro h
            obtain ⟨e1, e2⟩ := g3 h
            exact ⟨by rw [e1, hfeB], by rw [e2, b3, hds]⟩
          · intro h
            obtain ⟨e1, e2⟩ := g4 h
            refine ⟨?_, e2⟩
            rcases e1 with e1 | e1
            · left
              rw [e1, hfeB]
            · right
              rw [e1, hfeB]
          · intro htr hd
            obtain ⟨t1, t2⟩ := f9 htr hd
            exact g5 (by rw [b4]; exact t1) (by rw [b3]; exact t2)
      · rw [if_neg hlt]
        refine ⟨?_, ?_, ?_, ?_, ?_⟩
        · intro h
          exact f1 h
        · intro h
          exact f2 h
        · intro _
          constructor
          · simp [emitL, finishedEvents, hfe]
          · rw [show (emitL (LogE.progressE Msg.failedFrom) (emitL (LogE.att u a false) s1)).dest
              = s1.dest from rfl, hds]
        · intro h
          exact absurd h (by simp)
        · intro htr hd
          obtain ⟨t1, t2⟩ := f9 htr hd
          exact ⟨t1, t2⟩

/-- Regime-B facts about the fallback loop for an arbitrary cancellation
threshold, mirroring `tryFrom_facts`: only a `successO` outcome can add a
finished signal (exactly one success signal at most), and it leaves a complete
non-empty destination; the other outcomes change neither the finished signals
nor the destination. -/
lemma fbLoop_facts (plat : Plat) (t : Option Nat) (env : Nat → Nat → AttemptEnv) :
    ∀ (fuel j : Nat) (s : St),
    (s.temp = none → (fbLoop plat t env j fuel s).2.temp = none) ∧
    ((∀ x ∈ s.leaked, x = 0) → ∀ x ∈ (fbLoop plat t env j fuel s).2.leaked, x = 0) ∧
    ((fbLoop plat t env j fuel s).1 = FbOut.successO →
      (finishedEvents (fbLoop plat t env j fuel s).2.log = finishedEvents s.log ∨
        finishedEvents (fbLoop plat t env j fuel s).2.log =
          finishedEvents s.log ++ [(true, ErrMsg.noError)]) ∧
      isCompletePos (fbLoop plat t env j fuel s).2.dest = true) ∧
    ((fbLoop plat t env j fuel s).1 = FbOut.cancelledO →
      finishedEvents (fbLoop plat t env j fuel s).2.log = finishedEvents s.log ∧
      (fbLoop plat t env j fuel s).2.dest = s.dest) ∧
    ((fbLoop plat t env j fuel s).1 = FbOut.exhausted →
      finishedEvents (fbLoop plat t env j fuel s).2.log = finishedEvents s.log ∧
      (fbLoop plat t env j fuel s).2.dest = s.dest) ∧
    ((∀ o ∈ s.trace, destOkB o.1 = true) → destOkB s.dest = true →
      (∀ o ∈ (fbLoop plat t env j fuel s).2.trace, destOkB o.1 = true) ∧
      destOkB (fbLoop plat t env j fuel s).2.dest = true) := by
  intro fuel
  induction fuel with
  | zero =>
    intro j s
    refine ⟨fun h => h, fun h => h, ?_, ?_, fun _ => ⟨rfl, rfl⟩, fun h1 h2 => ⟨h1, h2⟩⟩
    · intro h
      exact absurd h (by simp [fbLoop])
    · intro h
      exact absurd h (by simp [fbLoop])
  | succ fuel ih =>
    intro j s
    rw [fbLoop]
    simp only [readCancel]
    by_cases h0 : readTrue t s.cnt = true
    · rw [if_pos h0]
      refine ⟨fun h => h, fun h => h, ?_, ?_, ?_, fun h1 h2 => ⟨?_, h2⟩⟩
      · intro h
        exact absurd h (by simp)
      · intro _
        refine ⟨?_, rfl⟩
        simp [emitL, finishedEvents]
      · intro h
        exact absurd h (by simp)
      · intro o ho
        simp only [emitL, List.mem_append, List.mem_singleton] at ho
        exact h1 o ho
    · rw [if_neg h0]
      rcases hTF : tryFrom plat t env j 1 1 1 { s with cnt := s.cnt + 1 } with ⟨bres, s1⟩
      obtain ⟨g1, g2, g3, g4, g5⟩ := tryFrom_facts plat t env j 1 1 1 { s with cnt := s.cnt + 1 }
      rw [hTF] at g1 g2 g3 g4 g5
      dsimp only at g1 g2 g3 g4 g5
      cases bres with
      | true =>
        dsimp only
        refine ⟨g1, g2, ?_, ?_, ?_, g5⟩
        · intro _
          exact g4 rfl
        · intro h
          exact absurd h (by simp)
        · intro h
          exact absurd h (by simp)
      | false =>
        dsimp only
        obtain ⟨e1, e2⟩ := g3 rfl
        obtain ⟨k1, k2, k3, k4, k5, k6⟩ := ih (j + 1) s1
        refine ⟨?_, ?_, ?_, ?_, ?_, ?_⟩
        · intro h
          exact k1 (g1 h)
        · intro h
          exact k2 (g2 h)
        · intro h
          obtain ⟨d1, d2⟩ := k3 h
          refine ⟨?_, d2⟩
          rcases d1 with d1 | d1
          · left
            rw [d1, e1]
          · right
            rw [d1, e1]
        · intro h
          obtain ⟨d1, d2⟩ := k4 h
          exact ⟨by rw [d1, e1], by rw [d2, e2]⟩
        · intro h
          obtain ⟨d1, d2⟩ := k5 h
          exact ⟨by rw [d1, e1], by rw [d2, e2]⟩
        · intro h1 h2
          exact k6 (g5 h1 h2).1 (g5 h1 h2).2

/-- Regime-B master facts about a whole worker run, for an arbitrary
cancellation threshold: the worker never leaves a temp-file handle in its
final state, every leaked temp file is empty, the run's finished signals are
`[]`, a lone success signal or a lone all-URLs-failed signal, every observable
destination state along the run satisfies the atomicity contract, and a
success signal implies a complete non-empty destination file. -/
lemma runWorker_facts (plat : Plat) (env : Nat → Nat → AttemptEnv) (retries nFallbacks : Nat)
    (t : Option Nat) :
    (runWorker plat env retries nFallbacks t).temp = none ∧
    (∀ x ∈ (runWorker plat env retries nFallbacks t).leaked, x = 0) ∧
    (finishedEvents (runWorker plat env retries nFallbacks t).log = [] ∨
      finishedEvents (runWorker plat env retries nFallbacks t).log = [(true, ErrMsg.noError)] ∨
      finishedEvents (runWorker plat env retries nFallbacks t).log =
        [(false, ErrMsg.allUrlsFailed)]) ∧
    (∀ o ∈ (runWorker plat env retries nFallbacks t).trace, destOkB o.1 = true) ∧
    destOkB (runWorker plat env retries nFallbacks t).dest = true ∧
    ((true, ErrMsg.noError) ∈ finishedEvents (runWorker plat env retries nFallbacks t).log →
      isCompletePos (runWorker plat env retries nFallbacks t).dest = true) := by
  rw [runWorker]
  simp only [readCancel, emitL, st0, zero_add, List.nil_append]
  by_cases h0 : readTrue t 0 = true
  · rw [if_pos h0]
    refine ⟨rfl, by decide, Or.inl rfl, by decide, rfl, ?_⟩
    intro hm
    exact absurd hm (by decide)
  · rw [if_neg h0]
    rcases hA : tryFrom plat t env 0 retries 1 retries
        { cnt := 1, dest := .absent, temp := none, leaked := [], log := [.progressE .starting],
          trace := [(.absent, none)] } with ⟨pres, s1⟩
    obtain ⟨g1, g2, g3, g4, g5⟩ := tryFrom_facts plat t env 0 retries retries 1
        { cnt := 1, dest := .absent, temp := none, leaked := [], log := [.progressE .starting],
          trace := [(.absent, none)] }
    rw [hA] at g1 g2 g3 g4 g5
    dsimp only at g1 g2 g3 g4 g5
    have h1 : s1.temp = none := g1 rfl
    have h2 : ∀ x ∈ s1.leaked, x = 0 := g2 (by decide)
    have htr2 : (∀ o ∈ s1.trace, destOkB o.1 = true) ∧ destOkB s1.dest = true :=
      g5 (by decide) (by decide)
    cases pres with
    | true =>
      dsimp only
      obtain ⟨d1, d2⟩ := g4 rfl
      refine ⟨h1, h2, ?_, htr2.1, htr2.2, fun _ => d2⟩
      rcases d1 with d1 | d1
      · exact Or.inl (d1.trans rfl)
      · exact Or.inr (Or.inl (d1.trans rfl))
    | false =>
      dsimp only
      obtain ⟨e1, e2⟩ := g3 rfl
      have hfe1 : finishedEvents s1.log = [] := e1.trans rfl
      by_cases h1c : readTrue t s1.cnt = true
      · rw [if_pos h1c]
        refine ⟨h1, h2, Or.inl (by simp [finishedEvents, hfe1]), htr2.1, htr2.2, ?_⟩
        intro hm
        exact absurd hm (by simp [finishedEvents, hfe1])
      · rw [if_neg h1c]
        by_cases hnf : nFallbacks = 0
        · subst hnf
          rw [if_pos rfl, fbLoop]
          dsimp only
          by_cases h2c : readTrue t (s1.cnt + 1) = true
          · rw [if_pos h2c]
            refine ⟨h1, h2, Or.inl hfe1, htr2.1, htr2.2, ?_⟩
            intro hm
            exact absurd hm (by simp [hfe1])
          · rw [if_neg h2c]
            refine ⟨h1, h2, Or.inr (Or.inr (by simp [finishedEvents, hfe1])),
              htr2.1, htr2.2, ?_⟩
            intro hm
            exact absurd hm (by simp [finishedEvents, hfe1])
        · rw [if_neg hnf]
          rcases hB : fbLoop plat t env 1 nFallbacks
              { cnt := s1.cnt + 1, dest := s1.dest, temp := s1.temp, leaked := s1.leaked,
                log := s1.log ++ [LogE.progressE Msg.primaryFailed], trace := s1.trace }
            with ⟨fres, s3⟩
          obtain ⟨k1, k2, k3, k4, k5, k6⟩ := fbLoop_facts plat t env nFallbacks 1
              { cnt := s1.cnt + 1, dest := s1.dest, temp := s1.temp, leaked := s1.leaked,
                log := s1.log ++ [LogE.progressE Msg.primaryFailed], trace := s1.trace }
          rw [hB] at k1 k2 k3 k4 k5 k6
          dsimp only at k1 k2 k3 k4 k5 k6
          have hs2fe : finishedEvents (s1.log ++ [LogE.progressE Msg.primaryFailed]) = [] := by
            simp [finishedEvents, hfe1]
          have htr3 : (∀ o ∈ s3.trace, destOkB o.1 = true) ∧ destOkB s3.dest = true :=
            k6 htr2.1 htr2.2
          cases fres with
          | successO =>
            dsimp only
            obtain ⟨d1, d2⟩ := k3 rfl
            refine ⟨k1 h1, k2 h2, ?_, htr3.1, htr3.2, fun _ => d2⟩
            rcases d1 with d1 | d1
            · exact Or.inl (by simp [d1, hs2fe])
            · refine Or.inr (Or.inl ?_)
              simp [d1, hs2fe]
          | cancelledO =>
            dsimp only
            obtain ⟨d1, _d2⟩ := k4 rfl
            refine ⟨k1 h1, k2 h2, Or.inl (by simp [d1, hs2fe]), htr3.1, htr3.2, ?_⟩
            intro hm
            exact absurd hm (by simp [d1, hs2fe])
          | exhausted =>
            dsimp only
            obtain ⟨d1, _d2⟩ := k5 rfl
            have hfe3 : finishedEvents s3.log = [] := by simp [d1, hs2fe]
            by_cases h3c : readTrue t s3.cnt = true
            · rw [if_pos h3c]
              refine ⟨k1 h1, k2 h2, Or.inl hfe3, htr3.1, htr3.2, ?_⟩
              intro hm
              exact absurd hm (by simp [hfe3])
            · rw [if_neg h3c]
              refine ⟨k1 h1, k2 h2, Or.inr (Or.inr (by simp [finishedEvents, hfe3])),
                htr3.1, htr3.2, ?_⟩
              intro hm
              exact absurd hm (by simp [finishedEvents, hfe3])

/-- C1: at every point during a run, every observable destination state is
absent or a complete non-empty file (never truncated), the worker holds no
temp file at the end, and every temp file left on disk is empty.  The claim's
stronger reading — that the temporary file is always deleted on failure or
cancellation — is refuted by `c1_counterexample`: the temp file created at
lines 240-242 is not removed when the cancellation check at line 246 fires. -/
theorem c1_theorem (plat : Plat) (env : Nat → Nat → AttemptEnv) (retries nFallbacks : Nat)
    (t : Option Nat) :
    (∀ o ∈ (runWorker plat env retries nFallbacks t).trace, destOkB o.1 = true) ∧
    (runWorker plat env retries nFallbacks t).temp = none ∧
    (∀ x ∈ (runWorker plat env retries nFallbacks t).leaked, x = 0) := by
  obtain ⟨h1, h2, _h3, h4, _h5, _h6⟩ := runWorker_facts plat env retries nFallbacks t
  exact ⟨h4, h1, h2⟩

/-- Witness for C1: the theorem applied to a concrete cancelled run, with the
trace membership discharged by evaluation. -/
theorem c1_witness :
    destOkB (FileSt.absent, (none : Option Nat)).1 = true ∧
    (runWorker Plat.linux envAllOk 1 0 (some 2)).temp = none :=
  ⟨(c1_theorem Plat.linux envAllOk 1 0 (some 2)).1 (FileSt.absent, none) (by decide),
   (c1_theorem Plat.linux envAllOk 1 0 (some 2)).2.1⟩

/-- Counterexample for C1's deletion clause: cancelling a job just after its
temp file is created (threshold 2: the flag is first seen set at the check of
line 246) leaves the empty temp file on disk — `leaked` is `[0]`, not `[]`. -/
theorem c1_counterexample :
    (runWorker Plat.linux envAllOk 1 0 (some 2)).leaked = [0] ∧
    decide ((runWorker Plat.linux envAllOk 1 0 (some 2)).leaked = []) = false := by
  exact ⟨rfl, rfl⟩

/-- C2: every run emits at most one finished signal, and an uncancelled run
emits exactly one.  The claim's stronger reading — that cancellation after
partial work still surfaces a terminal "cancelled" ResultEvent — is refuted
by `c2_counterexample`: every cancelled path returns without emitting. -/
theorem c2_theorem :
    (∀ (plat : Plat) (env : Nat → Nat → AttemptEnv) (retries nFallbacks : Nat) (t : Option Nat),
      (finishedEvents (runWorker plat env retries nFallbacks t).log).length ≤ 1) ∧
    (∀ (plat : Plat) (env : Nat → Nat → AttemptEnv) (retries nFallbacks : Nat),
      (finishedEvents (runWorker plat env retries nFallbacks none).log).length = 1) := by
  constructor
  · intro plat env retries nFallbacks t
    rcases (runWorker_facts plat env retries nFallbacks t).2.2.1 with h | h | h <;>
      rw [h] <;> simp
  · intro plat env retries nFallbacks
    rw [(runWorker_none plat env retries nFallbacks).2.2.2.2.1]
    by_cases hs : specSucceeded (fun u1 a1 => attSucc (env u1 a1)) retries nFallbacks = true
    · rw [if_pos hs]
      rfl
    · rw [if_neg hs]
      rfl

/-- Counterexample for C2's in-flight clause: a job cancelled mid-transfer
(threshold 4) has visibly done partial work — a `downloading` progress signal
was emitted — yet the run ends with zero finished signals, not a terminal
"cancelled" ResultEvent. -/
theorem c2_counterexample :
    (finishedEvents (runWorker Plat.linux (fun _ _ => envOk5) 1 0 (some 4)).log).length = 0 ∧
    LogE.progressE (Msg.downloading 1) ∈
      (runWorker Plat.linux (fun _ _ => envOk5) 1 0 (some 4)).log ∧
    decide (1 ≤
      (finishedEvents (runWorker Plat.linux (fun _ _ => envOk5) 1 0 (some 4)).log).length) =
      false := by
  exact ⟨rfl, by decide, rfl⟩

/-- C7: the code's attempt-success condition, and the success-implies-file
half of the claim.  An attempt succeeds iff the parent mkdir, a non-empty
completed transfer, the destination mkdir and the move all succeed and the
cancellation flag is still clear at the final check — not merely "transfer
complete and non-empty" as the claim words it (`c7_counterexample`).  A run
that reports success does leave a complete non-empty destination file. -/
theorem c7_theorem :
    (∀ (plat : Plat) (t : Option Nat) (e : AttemptEnv) (u a : Nat) (s : St),
      isSuccessR (tryAttempt plat t e u a s).1 =
        (attSucc e && !readTrue t (s.cnt + 2 + sizeOfT e.transfer))) ∧
    (∀ (plat : Plat) (env : Nat → Nat → AttemptEnv) (retries nFallbacks : Nat) (t : Option Nat),
      (true, ErrMsg.noError) ∈ finishedEvents (runWorker plat env retries nFallbacks t).log →
      isCompletePos (runWorker plat env retries nFallbacks t).dest = true) := by
  constructor
  · intro plat t e u a s
    exact (tryAttempt_facts plat t e u a s).2.2.2.2.2.2.2.2.2
  · intro plat env retries nFallbacks t
    exact (runWorker_facts plat env retries nFallbacks t).2.2.2.2.2

/-- Witness for C7: the success condition evaluated on a concrete attempt and
the file-existence conclusion on a concrete successful run, its finished-signal
hypothesis discharged by evaluation. -/
theorem c7_witness :
    isSuccessR (tryAttempt Plat.linux none envOk 0 1 st0).1 =
      (attSucc envOk && !readTrue none (st0.cnt + 2 + sizeOfT envOk.transfer)) ∧
    isCompletePos (runWorker Plat.linux envAllOk 1 0 none).dest = true :=
  ⟨c7_theorem.1 Plat.linux none envOk 0 1 st0,
   c7_theorem.2 Plat.linux envAllOk 1 0 none (by decide)⟩

/-- Counterexample for C7's iff: in `envMoveFail` the transfer completes with
a non-empty (5-block) file — the claim's condition holds — yet the attempt
fails with the move error, because `shutil.move` (line 269) raises. -/
theorem c7_counterexample :
    specAttemptWins envMoveFail = true ∧
    (tryAttempt Plat.linux none envMoveFail 0 1 st0).1 = AttResult.failedErr ErrMsg.moveErr ∧
    decide (isSuccessR (tryAttempt Plat.linux none envMoveFail 0 1 st0).1 = true) = false := by
  exact ⟨rfl, rfl, rfl⟩

/-- C10: for an uncancelled attempt whose transfer completes non-empty and
whose mkdirs and move succeed, the chmod outcome (failure prints only a
warning, lines 274-277; on Windows the step is skipped, line 272) never
changes the result: the attempt returns success, the file is at the
destination, and exactly one success signal is appended. -/
theorem c10_theorem (plat : Plat) (c dch : Bool) (u a b : Nat) (s : St)
    (hb : 0 < b) (hs : s.temp = none) :
    (tryAttempt plat none ⟨true, dch, Transfer.ok b, true, true, c⟩ u a s).1 =
      AttResult.success true ∧
    (tryAttempt plat none ⟨true, dch, Transfer.ok b, true, true, c⟩ u a s).2.dest =
      FileSt.complete b ∧
    finishedEvents (tryAttempt plat none ⟨true, dch, Transfer.ok b, true, true, c⟩ u a s).2.log =
      finishedEvents s.log ++ [(true, ErrMsg.noError)] := by
  have hsucc : attSucc ⟨true, dch, Transfer.ok b, true, true, c⟩ = true := by
    simpa [attSucc] using hb
  obtain ⟨f1, _f2, _f3, f4, _f5, _f6, f7⟩ :=
    tryAttempt_none plat ⟨true, dch, Transfer.ok b, true, true, c⟩ u a s hs
  refine ⟨?_, ?_, ?_⟩
  · rw [f1, if_pos hsucc]
  · rw [f4, if_pos hsucc]
    rfl
  · rw [f7, if_pos hsucc]

/-- Witness for C10: a failing chmod on Windows-skipped permissions still
yields success on a concrete 1-block attempt from the initial state. -/
theorem c10_witness :
    0 < 1 ∧ st0.temp = none ∧
    (tryAttempt Plat.windows none ⟨true, true, Transfer.ok 1, true, true, false⟩ 0 1 st0).1 =
      AttResult.success true ∧
    (tryAttempt Plat.windows none ⟨true, true, Transfer.ok 1, true, true, false⟩ 0 1 st0).2.dest =
      FileSt.complete 1 :=
  ⟨by decide, rfl,
   (c10_theorem Plat.windows false true 0 1 1 st0 (by decide) rfl).1,
   (c10_theorem Plat.windows false true 0 1 1 st0 (by decide) rfl).2.1⟩

end BBC
